import Mathlib

/-!
Verification of the INACAP schedule extraction and calendar serialization
pipeline (src/Inacap_to_Google_Calendar.py).

The Python source is shallowly embedded: each source function becomes a Lean
definition of the same name (Spanish names kept), strings are `List Char` or
`String`, fallible Python code (raising `ValueError` from `int`, `datetime.date`,
`datetime.time`, or the explicit `raise` sites) becomes `Except PyError`.
The HTML documents consumed by BeautifulSoup are represented by the selected
node texts the extractor actually reads (`Instantanea` below); the regular
expressions of the source are embedded as character-level matchers with the
same leftmost/greedy semantics on the relevant character classes.
-/

namespace Inacap

/-- Whitespace as matched by Python's regex class `\s` and by `str.strip`,
restricted to the characters that can arise in this pipeline (ASCII whitespace
plus the no-break space produced by decoding `&nbsp;`). -/
def pyIsSpace (c : Char) : Bool :=
  c == ' ' || c == '\t' || c == '\n' || c == '\r' || c == '\x0b' || c == '\x0c' || c == '\xa0'

/-- Python `str.lower`, restricted to ASCII plus the upper-case enye. -/
def pyLower (c : Char) : Char := if c = 'Ñ' then 'ñ' else c.toLower

/-- Python `html.unescape`, restricted to the five entities that occur in the
SIGA markup; anything else passes through unchanged. -/
def unescape : List Char → List Char
  | '&' :: 'a' :: 'm' :: 'p' :: ';' :: resto => '&' :: unescape resto
  | '&' :: 'l' :: 't' :: ';' :: resto => '<' :: unescape resto
  | '&' :: 'g' :: 't' :: ';' :: resto => '>' :: unescape resto
  | '&' :: 'q' :: 'u' :: 'o' :: 't' :: ';' :: resto => '"' :: unescape resto
  | '&' :: 'n' :: 'b' :: 's' :: 'p' :: ';' :: resto => '\xa0' :: unescape resto
  | c :: resto => c :: unescape resto
  | [] => []

/-- One pass of `re.sub(r"\s+", " ", x)`: every maximal whitespace run becomes
a single blank.  The flag records whether the previous character was
whitespace. -/
def colapsarAux : Bool → List Char → List Char
  | _, [] => []
  | enEspacio, c :: resto =>
    if pyIsSpace c then
      if enEspacio then colapsarAux true resto else ' ' :: colapsarAux true resto
    else c :: colapsarAux false resto

def colapsar (l : List Char) : List Char := colapsarAux false l

def quitarIzq (l : List Char) : List Char := l.dropWhile pyIsSpace

def quitarDer : List Char → List Char
  | [] => []
  | c :: resto =>
    match quitarDer resto with
    | [] => if pyIsSpace c then [] else [c]
    | r => c :: r

/-- Python `str.strip`. -/
def pyStrip (l : List Char) : List Char := quitarDer (quitarIzq l)

/-- `limpiar_texto` from the source: entity decoding, whitespace collapse,
strip.  This single function is used by both extraction strategies. -/
def limpiar_texto (s : String) : String := (pyStrip (colapsar (unescape s.data))).asString

def valDigito (c : Char) : Nat := c.toNat - 48

def valDigitos (l : List Char) : Nat := l.foldl (fun acc c => 10 * acc + valDigito c) 0

def digitChar (n : Nat) : Char := Char.ofNat (48 + n)

/-- Python `str.split(" / ")`, scanning left to right, non-overlapping. -/
def dividirSep : List Char → List (List Char)
  | [] => [[]]
  | [c] => [[c]]
  | [c, d] => [[c, d]]
  | c :: d :: e :: resto =>
    if c = ' ' ∧ d = '/' ∧ e = ' ' then [] :: dividirSep resto
    else
      match dividirSep (d :: e :: resto) with
      | [] => [[c]]
      | p :: ps => (c :: p) :: ps

def esPrefijo : List Char → List Char → Bool
  | [], _ => true
  | _ :: _, [] => false
  | p :: ps, c :: cs => p == c && esPrefijo ps cs

/-- `contenido.lower().startswith("sin clases")`. -/
def esSinClases (l : List Char) : Bool :=
  esPrefijo "sin clases".data (l.map pyLower)

/-- Error values standing for the distinct `ValueError` raise sites of the
source (explicit raises in `parse_fecha_rango`, plus the implicit raises of
`int`, `datetime.date` and `datetime.time`, and tuple unpacking). -/
inductive PyError where
  | formatoRango (etiqueta : String)
  | mesDesconocido (mes : List Char)
  | fechaInvalida (a m d : Nat)
  | horaInvalida (h m : Nat)
  | enteroInvalido (s : String)
  | formatoHora (s : String)
deriving DecidableEq

/-- Proleptic-Gregorian leap year, as in Python's `datetime`. -/
def esBisiesto (a : Nat) : Bool := a % 4 == 0 && (a % 100 != 0 || a % 400 == 0)

def diasDelMes (a m : Nat) : Nat :=
  if m = 2 then (if esBisiesto a then 29 else 28)
  else if m = 4 ∨ m = 6 ∨ m = 9 ∨ m = 11 then 30
  else 31

def fechaValida (a m d : Nat) : Bool :=
  decide (1 ≤ a) && decide (a ≤ 9999) && decide (1 ≤ m) && decide (m ≤ 12) &&
    decide (1 ≤ d) && decide (d ≤ diasDelMes a m)

structure Fecha where
  anio : Nat
  mes : Nat
  dia : Nat
deriving DecidableEq

/-- Python `datetime.date(a, m, d)`: validates its arguments and raises
`ValueError` on an out-of-range day (or month or year). -/
def crearFecha (a m d : Nat) : Except PyError Fecha :=
  if fechaValida a m d then .ok ⟨a, m, d⟩ else .error (.fechaInvalida a m d)

structure Hora where
  hora : Nat
  minuto : Nat
  segundo : Nat
deriving DecidableEq

/-- Python `datetime.time(hour=h, minute=m)`: seconds are zero, and the hour
and minute ranges are validated (`ValueError` outside 0-23 / 0-59). -/
def crearHora (h m : Nat) : Except PyError Hora :=
  if decide (h ≤ 23) && decide (m ≤ 59) then .ok ⟨h, m, 0⟩ else .error (.horaInvalida h m)

/-- Python `int()` on the digit-only strings the regex groups can produce. -/
def pyInt (l : List Char) : Except PyError Nat :=
  if decide (l ≠ []) && l.all (·.isDigit) then .ok (valDigitos l)
  else .error (.enteroInvalido l.asString)

/-- Python `str.split(":")`. -/
def dividirDosPuntos : List Char → List (List Char)
  | [] => [[]]
  | c :: resto =>
    if c = ':' then [] :: dividirDosPuntos resto
    else
      match dividirDosPuntos resto with
      | [] => [[c]]
      | p :: ps => (c :: p) :: ps

/-- `hhmm_to_time` from the source: split on the colon, convert both parts
with `int`, build a `datetime.time` (unpacking to exactly two parts). -/
def hhmm_to_time (s : String) : Except PyError Hora :=
  match dividirDosPuntos s.data with
  | [hs, ms] =>
    match pyInt hs with
    | .error e => .error e
    | .ok h =>
      match pyInt ms with
      | .error e => .error e
      | .ok m => crearHora h m
  | _ => .error (.formatoHora s)

/-! ## The week-range label regex

`re.search(r"(\d{1,2})\s*-\s*(\d{1,2})\s+([a-zñ.]+)\.?\s+(\d{4})", txt)` on the
stripped, lower-cased label.  The matcher below reproduces the leftmost search
with the pattern's greedy semantics; the only nondeterministic point that can
genuinely backtrack is the length of the `[a-zñ.]+` group, handled by
`buscarMes` trying lengths from longest to shortest. -/

def esCharMes (c : Char) : Bool := (decide ('a' ≤ c) && decide (c ≤ 'z')) || c == 'ñ' || c == '.'

/-- `\d{1,2}` greedily: two digits if available, else one. -/
def tomarDigitos12 : List Char → Option (Nat × List Char)
  | a :: b :: resto =>
    if a.isDigit then
      if b.isDigit then some (10 * valDigito a + valDigito b, resto)
      else some (valDigito a, b :: resto)
    else none
  | [a] => if a.isDigit then some (valDigito a, []) else none
  | [] => none

/-- `(\d{4})`: four digits (anything may follow). -/
def tomarAnio4 : List Char → Option Nat
  | a :: b :: c :: d :: _ =>
    if a.isDigit && b.isDigit && c.isDigit && d.isDigit then
      some (valDigitos [a, b, c, d])
    else none
  | _ => none

/-- `\.?\s+(\d{4})` after the month group.  If the next character is a dot it
must be consumed (the empty alternative would face `\s+` on the dot and fail
anyway). -/
def colaMes (resto : List Char) : Option Nat :=
  let r1 := match resto with
    | c :: r => if c = '.' then r else resto
    | [] => resto
  match r1 with
  | c :: _ => if pyIsSpace c then tomarAnio4 (r1.dropWhile pyIsSpace) else none
  | [] => none

/-- Backtracking over the length of the `[a-zñ.]+` group, longest first.
`run` is the maximal run of month-class characters, `despues` what follows. -/
def buscarMes (run despues : List Char) : Nat → Option (List Char × Nat)
  | 0 => none
  | k + 1 =>
    match colaMes (run.drop (k + 1) ++ despues) with
    | some anio => some (run.take (k + 1), anio)
    | none => buscarMes run despues k

/-- Attempt the whole range pattern at the start of `l`. -/
def coincidirRangoEn (l : List Char) : Option (Nat × Nat × List Char × Nat) :=
  match tomarDigitos12 l with
  | none => none
  | some (d1, r1) =>
    match r1.dropWhile pyIsSpace with
    | [] => none
    | g :: r3 =>
      if g = '-' then
        match tomarDigitos12 (r3.dropWhile pyIsSpace) with
        | none => none
        | some (d2, r5) =>
          match r5 with
          | c :: _ =>
            if pyIsSpace c then
              let r6 := r5.dropWhile pyIsSpace
              let run := r6.takeWhile esCharMes
              match buscarMes run (r6.dropWhile esCharMes) run.length with
              | some (mesTxt, anio) => some (d1, d2, mesTxt, anio)
              | none => none
            else none
          | [] => none
      else none

/-- `re.search`: try the pattern at every start position, leftmost first. -/
def buscarRango : List Char → Option (Nat × Nat × List Char × Nat)
  | [] => none
  | c :: resto =>
    match coincidirRangoEn (c :: resto) with
    | some r => some r
    | none => buscarRango resto

/-- The fixed month-abbreviation table `MESES` of the source. -/
def MESES : List (List Char × Nat) :=
  [("ene".data, 1), ("feb".data, 2), ("mar".data, 3), ("abr".data, 4),
   ("may".data, 5), ("jun".data, 6), ("jul".data, 7), ("ago".data, 8),
   ("sep".data, 9), ("oct".data, 10), ("nov".data, 11), ("dic".data, 12)]

def mesesLookup (w : List Char) : Option Nat :=
  (MESES.find? (fun p => p.1 == w)).map (fun p => p.2)

/-- `(label or "").strip().lower()`. -/
def normalizarEtiqueta (s : String) : List Char := (pyStrip s.data).map pyLower

/-- `parse_fecha_rango` from the source. -/
def parse_fecha_rango (etiqueta : String) : Except PyError (Nat × Nat × Nat × Nat) :=
  match buscarRango (normalizarEtiqueta etiqueta) with
  | none => .error (.formatoRango etiqueta)
  | some (d1, d2, mesTxt, anio) =>
    let mesTxt2 := mesTxt.filter (fun c => !(c == '.'))
    match mesesLookup mesTxt2 with
    | none => .error (.mesDesconocido mesTxt2)
    | some mes => .ok (d1, d2, mes, anio)

/-! ## Raw events and snapshots

`RawEvent` is the positional tuple `(fecha, t_ini, t_fin, resumen, contenido)`
of the source.  An `Instantanea` is one captured week of markup, represented by
the node texts the two strategies actually select: the range label
(`select_one(SEL_RANGO_LABEL)`, with the desktop parser's secondary
full-document text search as a second optional field), the `#horario-table`
structure, and the `#scheduleMob` article blocks. -/

structure EventoCrudo where
  fecha : Fecha
  tIni : Hora
  tFin : Hora
  resumen : String
  descripcion : String
deriving DecidableEq

structure Tabla where
  encabezado : Option (List String)
  filas : List (List String)

structure Articulo where
  titulo : Option String
  items : List String

structure Instantanea where
  etiquetaRango : Option String
  etiquetaBusqueda : Option String
  tabla : Option Tabla
  articulos : List Articulo

/-- Word characters for the regex `\b` boundary (`[a-zA-Z0-9_]`; the inputs
here are already lower-cased cleaned header texts). -/
def esCharPalabra (c : Char) : Bool := c.isAlphanum || c == '_'

/-- `re.search(r"(\d{1,2})$", h)`: leftmost match of one or two digits at the
end of the string, i.e. the last `min 2 k` of the `k` trailing digits. -/
def diaCola (l : List Char) : Option Nat :=
  let rev := l.reverse.takeWhile (·.isDigit)
  if rev = [] then none else some (valDigitos (rev.take 2).reverse)

/-- The attempt of `\b(\d{1,2})\b` at one position whose first digit is `c`:
greedily two digits, falling back to one, each requiring a trailing word
boundary. -/
def diaAqui (c : Char) : List Char → Option Nat
  | [] => some (valDigito c)
  | d :: resto2 =>
    if d.isDigit then
      match resto2 with
      | [] => some (10 * valDigito c + valDigito d)
      | x :: _ => if esCharPalabra x then none else some (10 * valDigito c + valDigito d)
    else if esCharPalabra d then none else some (valDigito c)

/-- `re.search(r"\b(\d{1,2})\b", h)`: scan left to right; the flag records
whether the previous character was a word character (no boundary). -/
def diaSuelto : Bool → List Char → Option Nat
  | _, [] => none
  | prevPal, c :: resto =>
    if !prevPal && c.isDigit then
      match diaAqui c resto with
      | some n => some n
      | none => diaSuelto (esCharPalabra c) resto
    else diaSuelto (esCharPalabra c) resto

/-- The header-day extraction of the source:
`re.search(r"(\d{1,2})$", h) or re.search(r"\b(\d{1,2})\b", h)`. -/
def numeroDia (l : List Char) : Option Nat :=
  match diaCola l with
  | some d => some d
  | none => diaSuelto false l

/-- The `fechas` column map of the tabular strategy: for each cleaned header
text, `date(anio, mes, dia)` when a day number is found (the `date`
constructor may raise), `None` otherwise. -/
def construirFechas (anio mes : Nat) : List String → Except PyError (List (Option Fecha))
  | [] => .ok []
  | h :: resto =>
    match numeroDia h.data with
    | some d =>
      match crearFecha anio mes d with
      | .error e => .error e
      | .ok f =>
        match construirFechas anio mes resto with
        | .error e => .error e
        | .ok resto2 => .ok (some f :: resto2)
    | none =>
      match construirFechas anio mes resto with
      | .error e => .error e
      | .ok resto2 => .ok (none :: resto2)

/-! ## The time-block regexes -/

/-- The group `(\d{1,2}:\d{2})`: one or two digits (greedy, never usefully
backtracked since a digit cannot be a colon), a colon, exactly two digits.
Returns the matched group text and the remaining characters. -/
def tomarGrupoHora : List Char → Option (List Char × List Char)
  | a :: b :: resto =>
    if a.isDigit then
      if b.isDigit then
        match resto with
        | c :: m1 :: m2 :: r =>
          if c = ':' ∧ m1.isDigit ∧ m2.isDigit then some ([a, b, ':', m1, m2], r) else none
        | _ => none
      else if b = ':' then
        match resto with
        | m1 :: m2 :: r =>
          if m1.isDigit && m2.isDigit then some ([a, ':', m1, m2], r) else none
        | _ => none
      else none
    else none
  | _ => none

/-- `re.match(r"(\d{1,2}:\d{2})\s*-\s*(\d{1,2}:\d{2})", bloque)`: anchored at
the start, trailing text ignored. -/
def coincidirBloque (l : List Char) : Option (List Char × List Char) :=
  match tomarGrupoHora l with
  | none => none
  | some (g1, r1) =>
    match r1.dropWhile pyIsSpace with
    | [] => none
    | g :: r2 =>
      if g = '-' then
        match tomarGrupoHora (r2.dropWhile pyIsSpace) with
        | none => none
        | some (g2, _) => some (g1, g2)
      else none

/-- `re.match(r"(\d{1,2}:\d{2})\s*-\s*(\d{1,2}:\d{2})\s+(.+)", txt)` of the
mobile strategy.  The `\s+(.+)` tail is modelled on the whitespace-collapsed
input the strategy feeds it: at least one space, then the non-empty rest of
the line. -/
def coincidirItemMovil (l : List Char) : Option (List Char × List Char × List Char) :=
  match tomarGrupoHora l with
  | none => none
  | some (g1, r1) =>
    match r1.dropWhile pyIsSpace with
    | [] => none
    | g :: r2 =>
      if g = '-' then
        match tomarGrupoHora (r2.dropWhile pyIsSpace) with
        | none => none
        | some (g2, r3) =>
          match r3 with
          | c :: _ =>
            if pyIsSpace c then
              let contenido := (r3.dropWhile pyIsSpace).takeWhile (fun d => !(d == '\n'))
              if contenido = [] then none else some (g1, g2, contenido)
            else none
          | [] => none
      else none

/-! ## The tabular ("desktop") strategy -/

/-- Lines 167-168 of the source: split the cleaned cell text on `" / "`,
strip the parts, drop the empty ones, title is the first part (the whole
text when no part remains). -/
def resumenTabular (contenido : List Char) : List Char :=
  match ((dividirSep contenido).map pyStrip).filter (fun p => !(p == [])) with
  | [] => contenido
  | p :: _ => p

/-- Line 201 of the source: `contenido.split(" / ")[0]`. -/
def resumenMovil (contenido : List Char) : List Char :=
  match dividirSep contenido with
  | p :: _ => p
  | [] => []

/-- Per-cell date resolution (lines 156-164): the pre-built column map first,
else re-derive a day number from the header text (empty when out of range);
an unresolvable date is `none`, not an error. -/
def resolverFecha (fechas : List (Option Fecha)) (headers : List String)
    (anio mes : Nat) (idx : Nat) : Except PyError (Option Fecha) :=
  match fechas.get? idx with
  | some (some f) => .ok (some f)
  | _ =>
    let hh := (headers.get? idx).getD ""
    match numeroDia hh.data with
    | some d =>
      match crearFecha anio mes d with
      | .error e => .error e
      | .ok f => .ok (some f)
    | none => .ok none

/-- One day cell of a body row (lines 150-169): skip when the cleaned text is
empty or starts with the "sin clases" marker, skip when no date resolves,
otherwise emit the raw event. -/
def procesarCelda (fechas : List (Option Fecha)) (headers : List String)
    (anio mes : Nat) (tIni tFin : Hora) (idx : Nat) (td : String) :
    Except PyError (Option EventoCrudo) :=
  let contenido := limpiar_texto td
  if contenido == "" || esSinClases contenido.data then .ok none
  else
    match resolverFecha fechas headers anio mes idx with
    | .error e => .error e
    | .ok none => .ok none
    | .ok (some f) =>
      .ok (some ⟨f, tIni, tFin, (resumenTabular contenido.data).asString, contenido⟩)

def procesarCeldas (fechas : List (Option Fecha)) (headers : List String)
    (anio mes : Nat) (tIni tFin : Hora) : Nat → List String → Except PyError (List EventoCrudo)
  | _, [] => .ok []
  | idx, td :: resto =>
    match procesarCelda fechas headers anio mes tIni tFin idx td with
    | .error e => .error e
    | .ok ev? =>
      match procesarCeldas fechas headers anio mes tIni tFin (idx + 1) resto with
      | .error e => .error e
      | .ok restoEvs =>
        .ok (match ev? with
          | some ev => ev :: restoEvs
          | none => restoEvs)

/-- The Time-Block Parser as used by the tabular strategy (lines 143-147):
match the anchored block pattern, then convert both groups with
`hhmm_to_time`.  A non-matching first cell yields `none` (the row is
skipped); an out-of-range hour or minute raises. -/
def leerBloque (bloque : String) : Except PyError (Option (Hora × Hora)) :=
  match coincidirBloque bloque.data with
  | none => .ok none
  | some (g1, g2) =>
    match hhmm_to_time g1.asString with
    | .error e => .error e
    | .ok tIni =>
      match hhmm_to_time g2.asString with
      | .error e => .error e
      | .ok tFin => .ok (some (tIni, tFin))

/-- One body row: the first cell must match the time-block pattern (spacer
rows are skipped); the remaining cells are the day cells. -/
def procesarFila (fechas : List (Option Fecha)) (headers : List String)
    (anio mes : Nat) : List String → Except PyError (List EventoCrudo)
  | [] => .ok []
  | c0 :: resto =>
    match leerBloque (limpiar_texto c0) with
    | .error e => .error e
    | .ok none => .ok []
    | .ok (some (tIni, tFin)) => procesarCeldas fechas headers anio mes tIni tFin 0 resto

def procesarFilas (fechas : List (Option Fecha)) (headers : List String)
    (anio mes : Nat) : List (List String) → Except PyError (List EventoCrudo)
  | [] => .ok []
  | fila :: resto =>
    match procesarFila fechas headers anio mes fila with
    | .error e => .error e
    | .ok evs =>
      match procesarFilas fechas headers anio mes resto with
      | .error e => .error e
      | .ok masEvs => .ok (evs ++ masEvs)

/-- Label recovery of the desktop parser (lines 113-117): the primary label
text, falling back to the stripped full-document text-node search when
empty. -/
def textoEtiqueta : Option String → String
  | some t => (pyStrip t.data).asString
  | none => ""

def etiquetaEscritorio (s : Instantanea) : String :=
  if textoEtiqueta s.etiquetaRango == "" then textoEtiqueta s.etiquetaBusqueda
  else textoEtiqueta s.etiquetaRango

/-- `extraer_eventos_desde_html`, the tabular strategy.  Returns `.ok []`
when no table or no header row is present (caller-visible fallback signal);
propagates label, date and time construction errors. -/
def extraer_eventos_desde_html (s : Instantanea) : Except PyError (List EventoCrudo) :=
  match parse_fecha_rango (etiquetaEscritorio s) with
  | .error e => .error e
  | .ok (_d1, _d2, mes, anio) =>
    match s.tabla with
    | none => .ok []
    | some tabla =>
      match tabla.encabezado with
      | none => .ok []
      | some celdasEnc =>
        let headers := (celdasEnc.drop 1).map limpiar_texto
        match construirFechas anio mes headers with
        | .error e => .error e
        | .ok fechas => procesarFilas fechas headers anio mes tabla.filas

/-! ## The list-based ("mobile") strategy -/

def etiquetaMovil (s : Instantanea) : String := textoEtiqueta s.etiquetaRango

/-- One schedule item (lines 191-202): skip when empty or "sin clases", skip
when the item pattern does not match, otherwise emit the raw event. -/
def procesarItem (f : Fecha) (item : String) : Except PyError (Option EventoCrudo) :=
  let txt := limpiar_texto item
  if txt == "" || esSinClases txt.data then .ok none
  else
    match coincidirItemMovil txt.data with
    | none => .ok none
    | some (g1, g2, cont) =>
      match hhmm_to_time g1.asString with
      | .error e => .error e
      | .ok tIni =>
        match hhmm_to_time g2.asString with
        | .error e => .error e
        | .ok tFin =>
          let contenido := pyStrip cont
          .ok (some ⟨f, tIni, tFin, (resumenMovil contenido).asString, contenido.asString⟩)

def procesarItems (f : Fecha) : List String → Except PyError (List EventoCrudo)
  | [] => .ok []
  | item :: resto =>
    match procesarItem f item with
    | .error e => .error e
    | .ok ev? =>
      match procesarItems f resto with
      | .error e => .error e
      | .ok restoEvs =>
        .ok (match ev? with
          | some ev => ev :: restoEvs
          | none => restoEvs)

/-- One per-day article block (lines 181-202): requires a day title whose
trailing digits give the day of month; `date` construction may raise. -/
def procesarArticulo (anio mes : Nat) (art : Articulo) : Except PyError (List EventoCrudo) :=
  match art.titulo with
  | none => .ok []
  | some t =>
    match diaCola (limpiar_texto t).data with
    | none => .ok []
    | some d =>
      match crearFecha anio mes d with
      | .error e => .error e
      | .ok f => procesarItems f art.items

def procesarArticulos (anio mes : Nat) : List Articulo → Except PyError (List EventoCrudo)
  | [] => .ok []
  | art :: resto =>
    match procesarArticulo anio mes art with
    | .error e => .error e
    | .ok evs =>
      match procesarArticulos anio mes resto with
      | .error e => .error e
      | .ok masEvs => .ok (evs ++ masEvs)

/-- `extraer_eventos_fallback_movil`. -/
def extraer_eventos_fallback_movil (s : Instantanea) : Except PyError (List EventoCrudo) :=
  match parse_fecha_rango (etiquetaMovil s) with
  | .error e => .error e
  | .ok (_d1, _d2, mes, anio) => procesarArticulos anio mes s.articulos

/-! ## The caller (main, lines 436-440): tabular strategy first, list-based
strategy only on an empty result, accumulation across weeks.  An exception
from either strategy propagates to main's top-level handler (exit code 2). -/

def procesarSemana (s : Instantanea) : Except PyError (List EventoCrudo) :=
  match extraer_eventos_desde_html s with
  | .error e => .error e
  | .ok evs => if evs.isEmpty then extraer_eventos_fallback_movil s else .ok evs

def extraerSemanas : List Instantanea → Except PyError (List EventoCrudo)
  | [] => .ok []
  | s :: resto =>
    match procesarSemana s with
    | .error e => .error e
    | .ok evs =>
      match extraerSemanas resto with
      | .error e => .error e
      | .ok masEvs => .ok (evs ++ masEvs)

/-! ## Deduplication (main, lines 445-447)

`uniq = list({key(ev): ev for ev in acumulados}.values())` with
`key(ev) = (ev[0].isoformat(), ev[1].strftime("%H:%M"), ev[2].strftime("%H:%M"), ev[3], ev[4])`.
Python dictionaries keep first-insertion key order and last-written values. -/

def pad2 (n : Nat) : List Char := [digitChar (n / 10), digitChar (n % 10)]

def pad4 (n : Nat) : List Char :=
  [digitChar (n / 1000), digitChar (n / 100 % 10), digitChar (n / 10 % 10), digitChar (n % 10)]

/-- `date.isoformat()`: YYYY-MM-DD. -/
def isoFecha (f : Fecha) : List Char := pad4 f.anio ++ '-' :: pad2 f.mes ++ '-' :: pad2 f.dia

/-- `time.strftime("%H:%M")`. -/
def fmtHMdp (t : Hora) : List Char := pad2 t.hora ++ ':' :: pad2 t.minuto

/-- `time.strftime("%H%M")`. -/
def fmtHM (t : Hora) : List Char := pad2 t.hora ++ pad2 t.minuto

/-- `time.strftime("%H%M%S")`. -/
def fmtHMS (t : Hora) : List Char := pad2 t.hora ++ pad2 t.minuto ++ pad2 t.segundo

/-- `date.strftime("%Y%m%d")`. -/
def fmtYmd (f : Fecha) : List Char := pad4 f.anio ++ pad2 f.mes ++ pad2 f.dia

abbrev Clave := String × String × String × String × String

/-- The dedup identity key `key(ev)` of main. -/
def claveEvento (ev : EventoCrudo) : Clave :=
  ((isoFecha ev.fecha).asString, (fmtHMdp ev.tIni).asString, (fmtHMdp ev.tFin).asString,
   ev.resumen, ev.descripcion)

/-- One dictionary write `d[key(ev)] = ev`: overwrite in place if the key
exists (keeping first-insertion order), else append. -/
def insertarClave (acc : List (Clave × EventoCrudo)) (ev : EventoCrudo) :
    List (Clave × EventoCrudo) :=
  if acc.any (fun p => decide (p.1 = claveEvento ev)) then
    acc.map (fun p => if p.1 = claveEvento ev then (p.1, ev) else p)
  else acc ++ [(claveEvento ev, ev)]

/-- `list({key(ev): ev for ev in acumulados}.values())`. -/
def deduplicar (evs : List EventoCrudo) : List EventoCrudo :=
  (evs.foldl insertarClave []).map (fun p => p.2)

/-! ## Calendar document builder -/

def crlf : List Char := ['\r', '\n']

/-- Decimal digits of `n`, most significant first, by fuel-counted division
(the fuel `n + 1` always suffices). -/
def decReprAux : Nat → Nat → List Char
  | 0, _ => []
  | fuel + 1, n => if n < 10 then [digitChar n] else decReprAux fuel (n / 10) ++ [digitChar (n % 10)]

/-- Python `str(n)` for a natural number, as interpolated by `f"...{uid_counter}..."`. -/
def decRepr (n : Nat) : List Char := decReprAux (n + 1) n

/-- `descripcion.replace("\n", "\\n")` (a literal backslash-n). -/
def reemplazarNl : List Char → List Char
  | [] => []
  | c :: resto => if c == '\n' then '\\' :: 'n' :: reemplazarNl resto else c :: reemplazarNl resto

/-- `resumen.replace("\n", " ")`. -/
def reemplazarNlEspacio : List Char → List Char
  | [] => []
  | c :: resto => if c == '\n' then ' ' :: reemplazarNlEspacio resto else c :: reemplazarNlEspacio resto

def TZID : String := "America/Santiago"

/-- The uid interpolation of `construir_evento` (line 215):
`f"inacap-{fecha:%Y%m%d}-{t_ini:%H%M}-{uid_counter}@siga"`. -/
def uidEvento (fecha : Fecha) (tIni : Hora) (contador : Nat) : List Char :=
  "inacap-".data ++ fmtYmd fecha ++ '-' :: fmtHM tIni ++ '-' :: decRepr contador ++ "@siga".data

/-- `construir_evento`.  `datetime.utcnow().strftime(...)` is the one impure
input and is passed in as the `dtstamp` parameter. -/
def construir_evento (contador : Nat) (resumen : String) (fecha : Fecha)
    (tIni tFin : Hora) (descripcion : String) (dtstamp : String) : String :=
  let resumenL := pyStrip (reemplazarNlEspacio resumen.data)
  let descL := reemplazarNl descripcion.data
  let dtstartL := "TZID=".data ++ TZID.data ++ ':' :: (fmtYmd fecha ++ 'T' :: fmtHMS tIni)
  let dtendL := "TZID=".data ++ TZID.data ++ ':' :: (fmtYmd fecha ++ 'T' :: fmtHMS tFin)
  (("BEGIN:VEVENT".data ++ crlf) ++
   ("UID:".data ++ uidEvento fecha tIni contador ++ crlf) ++
   ("DTSTAMP:".data ++ dtstamp.data ++ crlf) ++
   ("DTSTART;".data ++ dtstartL ++ crlf) ++
   ("DTEND;".data ++ dtendL ++ crlf) ++
   ("SUMMARY:".data ++ resumenL ++ crlf) ++
   ("DESCRIPTION:".data ++ descL ++ crlf) ++
   "END:VEVENT".data).asString

/-- The fixed VTIMEZONE block of `exportar_ics`. -/
def vtimezoneBloque : String :=
  "BEGIN:VTIMEZONE\r\nTZID:America/Santiago\r\nX-LIC-LOCATION:America/Santiago\r\nBEGIN:STANDARD\r\nTZOFFSETFROM:-0300\r\nTZOFFSETTO:-0400\r\nTZNAME:-04\r\nDTSTART:19700426T000000\r\nRRULE:FREQ=YEARLY;BYMONTH=4;BYDAY=4SU\r\nEND:STANDARD\r\nBEGIN:DAYLIGHT\r\nTZOFFSETFROM:-0400\r\nTZOFFSETTO:-0300\r\nTZNAME:-03\r\nDTSTART:19700906T000000\r\nRRULE:FREQ=YEARLY;BYMONTH=9;BYDAY=1SU\r\nEND:DAYLIGHT\r\nEND:VTIMEZONE\r\n"

/-- `enumerate(eventos)` with a starting index. -/
def conIndice (base : Nat) : List EventoCrudo → List (Nat × EventoCrudo)
  | [] => []
  | ev :: resto => (base, ev) :: conIndice (base + 1) resto

/-- The event blocks of `exportar_ics` (line 252):
`[construir_evento(i + 1, ev[3], ev[0], ev[1], ev[2], ev[4]) for i, ev in enumerate(eventos)]`. -/
def bloquesIcs (eventos : List EventoCrudo) (dtstamp : String) : List String :=
  (conIndice 0 eventos).map
    (fun p => construir_evento (p.1 + 1) p.2.resumen p.2.fecha p.2.tIni p.2.tFin p.2.descripcion dtstamp)

/-- `exportar_ics` content (the file write and print are external effects). -/
def exportar_ics (eventos : List EventoCrudo) (nombre : String) (dtstamp : String) : String :=
  "BEGIN:VCALENDAR\r\nPRODID:-//INACAP->GoogleCalendar//ES\r\nVERSION:2.0\r\nCALSCALE:GREGORIAN\r\nMETHOD:PUBLISH\r\nX-WR-CALNAME:" ++
    nombre ++ "\r\nX-WR-TIMEZONE:America/Santiago\r\n" ++ vtimezoneBloque ++
    String.intercalate "\r\n" (bloquesIcs eventos dtstamp) ++ "\r\nEND:VCALENDAR\r\n"

/-- The uids assigned by the ICS builder, in document order. -/
def uidsExportadas (eventos : List EventoCrudo) : List (List Char) :=
  (conIndice 0 eventos).map (fun p => uidEvento p.2.fecha p.2.tIni (p.1 + 1))

/-! ## The push adapter (pure identity parts) -/

/-- The uid interpolation of `push_to_google_calendar` (line 317), with
`enumerate(eventos, start=1)`:
`f"inacap-{f:%Y%m%d}-{t_ini:%H%M}-{i}@siga"`. -/
def uidPush (f : Fecha) (tIni : Hora) (i : Nat) : List Char :=
  "inacap-".data ++ fmtYmd f ++ '-' :: fmtHM tIni ++ '-' :: decRepr i ++ "@siga".data

def uidsPush (eventos : List EventoCrudo) : List (List Char) :=
  (conIndice 1 eventos).map (fun p => uidPush p.2.fecha p.2.tIni p.1)

/-! ### SHA-1 (`hashlib.sha1(uid.encode("utf-8")).hexdigest()`)

A direct embedding over naturals reduced modulo 2^32. -/

def m32 (n : Nat) : Nat := n % 4294967296

def rotl (b n : Nat) : Nat := m32 (n * 2 ^ b + n / 2 ^ (32 - b))

def codificarUtf8Char (c : Char) : List Nat :=
  let n := c.toNat
  if n < 128 then [n]
  else if n < 2048 then [192 + n / 64, 128 + n % 64]
  else if n < 65536 then [224 + n / 4096, 128 + n / 64 % 64, 128 + n % 64]
  else [240 + n / 262144, 128 + n / 4096 % 64, 128 + n / 64 % 64, 128 + n % 64]

def codificarUtf8 (l : List Char) : List Nat :=
  l.foldr (fun c acc => codificarUtf8Char c ++ acc) []

/-- Big-endian bytes of `n`, `k` bytes wide. -/
def bytesBE : Nat → Nat → List Nat
  | 0, _ => []
  | k + 1, n => n / 2 ^ (8 * k) % 256 :: bytesBE k n

/-- Message padding: 0x80, zeros to 56 mod 64, 8-byte bit length. -/
def rellenarSha (msg : List Nat) : List Nat :=
  let len := msg.length
  msg ++ 128 :: List.replicate ((119 - len % 64) % 64) 0 ++ bytesBE 8 (8 * len)

def trozos64 : Nat → List Nat → List (List Nat)
  | 0, _ => []
  | _, [] => []
  | fuel + 1, l => l.take 64 :: trozos64 fuel (l.drop 64)

def palabras32 : List Nat → List Nat
  | a :: b :: c :: d :: resto => (((a * 256 + b) * 256 + c) * 256 + d) :: palabras32 resto
  | _ => []

def pasoExtension (ws : List Nat) : List Nat :=
  let n := ws.length
  ws ++ [rotl 1 (Nat.xor (Nat.xor (ws.getD (n - 3) 0) (ws.getD (n - 8) 0))
                  (Nat.xor (ws.getD (n - 14) 0) (ws.getD (n - 16) 0)))]

def extenderN : Nat → List Nat → List Nat
  | 0, ws => ws
  | k + 1, ws => extenderN k (pasoExtension ws)

def sha1F (i b c d : Nat) : Nat :=
  if i < 20 then Nat.lor (Nat.land b c) (Nat.land (4294967295 - b) d)
  else if i < 40 then Nat.xor (Nat.xor b c) d
  else if i < 60 then Nat.lor (Nat.lor (Nat.land b c) (Nat.land b d)) (Nat.land c d)
  else Nat.xor (Nat.xor b c) d

def sha1K (i : Nat) : Nat :=
  if i < 20 then 1518500249 else if i < 40 then 1859775393
  else if i < 60 then 2400959708 else 3395469782

def pasoSha (st : Nat × Nat × Nat × Nat × Nat) (p : Nat × Nat) : Nat × Nat × Nat × Nat × Nat :=
  let (a, b, c, d, e) := st
  let (i, w) := p
  (m32 (rotl 5 a + sha1F i b c d + e + sha1K i + w), a, rotl 30 b, c, d)

def indicesCon (base : Nat) : List Nat → List (Nat × Nat)
  | [] => []
  | w :: resto => (base, w) :: indicesCon (base + 1) resto

def procesarTrozo (hs : Nat × Nat × Nat × Nat × Nat) (trozo : List Nat) :
    Nat × Nat × Nat × Nat × Nat :=
  let ws := extenderN 64 (palabras32 trozo)
  let (a, b, c, d, e) := (indicesCon 0 ws).foldl pasoSha hs
  let (h0, h1, h2, h3, h4) := hs
  (m32 (h0 + a), m32 (h1 + b), m32 (h2 + c), m32 (h3 + d), m32 (h4 + e))

def hexDigito (n : Nat) : Char := if n < 10 then digitChar n else Char.ofNat (87 + n)

def hex8 (n : Nat) : List Char :=
  [hexDigito (n / 268435456 % 16), hexDigito (n / 16777216 % 16), hexDigito (n / 1048576 % 16),
   hexDigito (n / 65536 % 16), hexDigito (n / 4096 % 16), hexDigito (n / 256 % 16),
   hexDigito (n / 16 % 16), hexDigito (n % 16)]

def sha1Hex (msg : List Nat) : List Char :=
  let acolchado := rellenarSha msg
  let (h0, h1, h2, h3, h4) :=
    (trozos64 (acolchado.length + 1) acolchado).foldl procesarTrozo
      (1732584193, 4023233417, 2562383102, 271733878, 3285377520)
  hex8 h0 ++ hex8 h1 ++ hex8 h2 ++ hex8 h3 ++ hex8 h4

/-- `_event_id_from_uid`: `f"inacap-{sha1(uid).hexdigest()}"`. -/
def event_id_from_uid (uid : List Char) : List Char :=
  "inacap-".data ++ sha1Hex (codificarUtf8 uid)

/-! ## Re-parsing DTSTART/DTEND from a serialized event -/

def partirCRLF : List Char → List (List Char)
  | [] => [[]]
  | [c] => [[c]]
  | c :: d :: resto =>
    if c = '\r' ∧ d = '\n' then [] :: partirCRLF resto
    else
      match partirCRLF (d :: resto) with
      | [] => [[c]]
      | p :: ps => (c :: p) :: ps

def quitarPrefijo : List Char → List Char → Option (List Char)
  | [], l => some l
  | _ :: _, [] => none
  | p :: ps, c :: cs => if p == c then quitarPrefijo ps cs else none

def lineaConPrefijo (pref : List Char) : List (List Char) → Option (List Char)
  | [] => none
  | l :: resto =>
    match quitarPrefijo pref l with
    | some r => some r
    | none => lineaConPrefijo pref resto

/-- Parse the field value `TZID=America/Santiago:YYYYMMDDTHHMMSS` back into
the wall-clock date and time. -/
def parseValorDt (l : List Char) : Option (Fecha × Hora) :=
  match quitarPrefijo ("TZID=America/Santiago:".data) l with
  | none => none
  | some r =>
    match r with
    | [y1, y2, y3, y4, mo1, mo2, d1, d2, 'T', h1, h2, mi1, mi2, s1, s2] =>
      if [y1, y2, y3, y4, mo1, mo2, d1, d2, h1, h2, mi1, mi2, s1, s2].all (·.isDigit) then
        some (⟨valDigitos [y1, y2, y3, y4], valDigitos [mo1, mo2], valDigitos [d1, d2]⟩,
              ⟨valDigitos [h1, h2], valDigitos [mi1, mi2], valDigitos [s1, s2]⟩)
      else none
    | _ => none

def reparseDtstart (s : String) : Option (Fecha × Hora) :=
  (lineaConPrefijo ("DTSTART;".data) (partirCRLF s.data)).bind parseValorDt

def reparseDtend (s : String) : Option (Fecha × Hora) :=
  (lineaConPrefijo ("DTEND;".data) (partirCRLF s.data)).bind parseValorDt

/-! # Theorems -/

/-! ## C2: uid agreement between the ICS builder and the push adapter -/

theorem conIndice_uid (b : Nat) (evs : List EventoCrudo) :
    (conIndice b evs).map (fun p => uidEvento p.2.fecha p.2.tIni (p.1 + 1)) =
      (conIndice (b + 1) evs).map (fun p => uidPush p.2.fecha p.2.tIni p.1) := by
  induction evs generalizing b with
  | nil => rfl
  | cons ev resto ih =>
    simp only [conIndice, List.map_cons]
    exact congrArg₂ List.cons rfl (ih (b + 1))

/-- C2: for the same deduplicated event sequence, the uid assigned at 1-based
position i by the ICS builder (`construir_evento`, via `uidEvento`) and the uid
computed at position i by the push adapter (`push_to_google_calendar`, via
`uidPush`) are the same string `inacap-YYYYMMDD-HHMM-i@siga`, and the
`RemoteEventKey` derivation `_event_id_from_uid` maps equal uids to equal
keys, so repeated runs over an unchanged schedule produce identical uids and
identical remote keys. -/
theorem c2_uids_coinciden :
    (∀ eventos : List EventoCrudo, uidsExportadas eventos = uidsPush eventos) ∧
    (∀ (f : Fecha) (t : Hora) (i : Nat),
      uidEvento f t i = uidPush f t i ∧
      uidEvento f t i =
        "inacap-".data ++ fmtYmd f ++ '-' :: fmtHM t ++ '-' :: decRepr i ++ "@siga".data) ∧
    (∀ u v : List Char, u = v → event_id_from_uid u = event_id_from_uid v) :=
  ⟨fun eventos => conIndice_uid 0 eventos, fun _ _ _ => ⟨rfl, rfl⟩, fun _ _ h => by rw [h]⟩

theorem c2_uids_coinciden_testigo :
    event_id_from_uid ("inacap-20250804-0800-1@siga".data) =
      event_id_from_uid ("inacap-20250804-0800-1@siga".data) :=
  c2_uids_coinciden.2.2 _ _ rfl

/-! ## C1: deduplication across weekly snapshots -/

/-- Dictionary lookup in the insertion-ordered association list. -/
def buscarClave (k : Clave) : List (Clave × EventoCrudo) → Option EventoCrudo
  | [] => none
  | p :: resto => if p.1 = k then some p.2 else buscarClave k resto

theorem buscarClave_append (k : Clave) (l1 l2 : List (Clave × EventoCrudo)) :
    buscarClave k (l1 ++ l2) =
      match buscarClave k l1 with
      | some v => some v
      | none => buscarClave k l2 := by
  induction l1 with
  | nil => simp [buscarClave]
  | cons p resto ih =>
    by_cases h : p.1 = k <;> simp [buscarClave, h, ih]

theorem buscarClave_ninguna (k : Clave) (acc : List (Clave × EventoCrudo))
    (h : acc.any (fun p => decide (p.1 = k)) = false) : buscarClave k acc = none := by
  induction acc with
  | nil => rfl
  | cons p resto ih =>
    simp only [List.any_cons, Bool.or_eq_false_iff, decide_eq_false_iff_not] at h
    simp [buscarClave, h.1, ih h.2]

theorem buscarClave_map_hit (c : Clave) (ev : EventoCrudo) (acc : List (Clave × EventoCrudo))
    (h : acc.any (fun p => decide (p.1 = c)) = true) :
    buscarClave c (acc.map (fun p => if p.1 = c then (p.1, ev) else p)) = some ev := by
  induction acc with
  | nil => simp at h
  | cons p resto ih =>
    by_cases hp : p.1 = c
    · simp [buscarClave, hp]
    · simp only [List.any_cons, Bool.or_eq_true, decide_eq_true_eq] at h
      rcases h with h | h
      · exact absurd h hp
      · simp [buscarClave, hp, ih h]

theorem buscarClave_map_miss (c k : Clave) (ev : EventoCrudo) (acc : List (Clave × EventoCrudo))
    (hk : k ≠ c) :
    buscarClave k (acc.map (fun p => if p.1 = c then (p.1, ev) else p)) = buscarClave k acc := by
  induction acc with
  | nil => rfl
  | cons p resto ih =>
    by_cases hp : p.1 = c
    · have h2 : ¬ c = k := fun h => hk h.symm
      simp [buscarClave, hp, h2, ih]
    · by_cases hpk : p.1 = k
      · have h3 : ¬ k = c := hpk ▸ hp
        simp [buscarClave, hp, hpk, h3, ih]
      · simp [buscarClave, hp, hpk, ih]

theorem buscarClave_insertar (acc : List (Clave × EventoCrudo)) (ev : EventoCrudo) (k : Clave) :
    buscarClave k (insertarClave acc ev) =
      if claveEvento ev = k then some ev else buscarClave k acc := by
  unfold insertarClave
  by_cases hany : acc.any (fun p => decide (p.1 = claveEvento ev)) = true
  · simp only [hany, if_true]
    by_cases hk : claveEvento ev = k
    · subst hk
      simp [buscarClave_map_hit _ ev acc hany]
    · simp [buscarClave_map_miss _ _ ev acc (fun h => hk h.symm), hk]
  · have hf : acc.any (fun p => decide (p.1 = claveEvento ev)) = false := by
      revert hany
      cases acc.any (fun p => decide (p.1 = claveEvento ev)) <;> simp
    simp only [hf, Bool.false_eq_true, if_false]
    rw [buscarClave_append]
    by_cases hk : claveEvento ev = k
    · subst hk
      rw [buscarClave_ninguna _ _ hf]
      simp [buscarClave]
    · cases hv : buscarClave k acc <;> simp [buscarClave, hk, hv]

theorem buscarClave_foldl (evs : List EventoCrudo) (acc : List (Clave × EventoCrudo)) (k : Clave) :
    buscarClave k (evs.foldl insertarClave acc) =
      match evs.reverse.find? (fun e => decide (claveEvento e = k)) with
      | some e => some e
      | none => buscarClave k acc := by
  induction evs generalizing acc with
  | nil => rfl
  | cons e es ih =>
    simp only [List.foldl_cons, List.reverse_cons, List.find?_append]
    rw [ih]
    cases hf : es.reverse.find? (fun e => decide (claveEvento e = k)) with
    | some x => simp [hf]
    | none =>
      simp only [hf, Option.none_or]
      rw [buscarClave_insertar]
      by_cases hk : claveEvento e = k <;> simp [List.find?, hk]

theorem claves_correctas_insertar (acc : List (Clave × EventoCrudo)) (ev : EventoCrudo)
    (h : ∀ p ∈ acc, claveEvento p.2 = p.1) :
    ∀ p ∈ insertarClave acc ev, claveEvento p.2 = p.1 := by
  intro p hp
  unfold insertarClave at hp
  by_cases hany : acc.any (fun p => decide (p.1 = claveEvento ev)) = true
  · simp only [hany, if_true, List.mem_map] at hp
    obtain ⟨q, hq, rfl⟩ := hp
    by_cases hqc : q.1 = claveEvento ev
    · simp [hqc]
    · simp [hqc, h q hq]
  · have hf : acc.any (fun p => decide (p.1 = claveEvento ev)) = false := by
      revert hany
      cases acc.any (fun p => decide (p.1 = claveEvento ev)) <;> simp
    simp only [hf, Bool.false_eq_true, if_false, List.mem_append, List.mem_singleton] at hp
    rcases hp with hp | rfl
    · exact h p hp
    · rfl

theorem claves_nodup_insertar (acc : List (Clave × EventoCrudo)) (ev : EventoCrudo)
    (h : (acc.map (fun p => p.1)).Nodup) :
    ((insertarClave acc ev).map (fun p => p.1)).Nodup := by
  unfold insertarClave
  by_cases hany : acc.any (fun p => decide (p.1 = claveEvento ev)) = true
  · simp only [hany, if_true]
    have : (acc.map (fun p => if p.1 = claveEvento ev then (p.1, ev) else p)).map
        (fun p => p.1) = acc.map (fun p => p.1) := by
      rw [List.map_map]
      apply List.map_congr_left
      intro p _
      by_cases hp : p.1 = claveEvento ev <;> simp [hp]
    rw [this]
    exact h
  · have hf : acc.any (fun p => decide (p.1 = claveEvento ev)) = false := by
      revert hany
      cases acc.any (fun p => decide (p.1 = claveEvento ev)) <;> simp
    have hnot : claveEvento ev ∉ acc.map (fun p => p.1) := by
      intro hmem
      obtain ⟨q, hq, hq1⟩ := List.mem_map.mp hmem
      have : acc.any (fun p => decide (p.1 = claveEvento ev)) = true :=
        List.any_eq_true.mpr ⟨q, hq, by simp [hq1]⟩
      rw [this] at hf
      cases hf
    simp only [hf, Bool.false_eq_true, if_false, List.map_append, List.map_cons, List.map_nil]
    exact List.Nodup.append h (List.nodup_singleton _) (by
      intro a ha hb
      simp only [List.mem_singleton] at hb
      exact hnot (hb ▸ ha))

theorem filtro_sin_clave (pares : List (Clave × EventoCrudo)) (k : Clave)
    (hkc : ∀ p ∈ pares, claveEvento p.2 = p.1)
    (hnot : k ∉ pares.map (fun p => p.1)) :
    (pares.map (fun p => p.2)).filter (fun e => decide (claveEvento e = k)) = [] := by
  induction pares with
  | nil => rfl
  | cons p resto ih =>
    simp only [List.map_cons, List.mem_cons, not_or] at hnot
    have hp1 : claveEvento p.2 = p.1 := hkc p (by simp)
    have : ¬ claveEvento p.2 = k := by rw [hp1]; exact fun h => hnot.1 h.symm
    simp only [List.map_cons, List.filter_cons, decide_eq_true_eq, this, if_false]
    exact ih (fun q hq => hkc q (by simp [hq])) hnot.2

theorem filtro_buscarClave (pares : List (Clave × EventoCrudo)) (k : Clave)
    (hkc : ∀ p ∈ pares, claveEvento p.2 = p.1)
    (hnd : (pares.map (fun p => p.1)).Nodup) :
    (pares.map (fun p => p.2)).filter (fun e => decide (claveEvento e = k)) =
      match buscarClave k pares with
      | some v => [v]
      | none => [] := by
  induction pares with
  | nil => rfl
  | cons p resto ih =>
    have hp1 : claveEvento p.2 = p.1 := hkc p (by simp)
    simp only [List.map_cons, List.nodup_cons] at hnd
    by_cases hk : p.1 = k
    · have hcond : claveEvento p.2 = k := hp1.trans hk
      simp only [List.map_cons, List.filter_cons, decide_eq_true_eq, hcond, if_true,
        buscarClave, hk]
      have : (resto.map (fun p => p.2)).filter (fun e => decide (claveEvento e = k)) = [] := by
        apply filtro_sin_clave resto k (fun q hq => hkc q (by simp [hq]))
        rw [← hk]
        exact hnd.1
      simp [this]
    · have hcond : ¬ claveEvento p.2 = k := by rw [hp1]; exact hk
      simp only [List.map_cons, List.filter_cons, decide_eq_true_eq, hcond, if_false,
        buscarClave, hk]
      exact ih (fun q hq => hkc q (by simp [hq])) hnd.2

theorem claves_correctas_foldl (evs : List EventoCrudo) :
    ∀ p ∈ evs.foldl insertarClave [], claveEvento p.2 = p.1 := by
  have gen : ∀ (evs : List EventoCrudo) (acc : List (Clave × EventoCrudo)),
      (∀ p ∈ acc, claveEvento p.2 = p.1) →
      ∀ p ∈ evs.foldl insertarClave acc, claveEvento p.2 = p.1 := by
    intro evs
    induction evs with
    | nil => intro acc h; exact h
    | cons e es ih =>
      intro acc h
      exact ih _ (claves_correctas_insertar acc e h)
  exact gen evs [] (by simp)

theorem claves_nodup_foldl (evs : List EventoCrudo) :
    ((evs.foldl insertarClave []).map (fun p => p.1)).Nodup := by
  have gen : ∀ (evs : List EventoCrudo) (acc : List (Clave × EventoCrudo)),
      (acc.map (fun p => p.1)).Nodup →
      ((evs.foldl insertarClave acc).map (fun p => p.1)).Nodup := by
    intro evs
    induction evs with
    | nil => intro acc h; exact h
    | cons e es ih =>
      intro acc h
      exact ih _ (claves_nodup_insertar acc e h)
  exact gen evs [] (by simp)

/-- C1: for every input sequence of raw events (the concatenation of any
number of weekly snapshots), the deduplicator keeps exactly one event per
distinct identity key (`date.isoformat()`, start "HH:MM", end "HH:MM", title,
description), namely the last-seen instance in iteration order — the filter of
the output at key k is the singleton of the last input event with that key,
and empty when the key never occurs; in particular two events with identical
identity coming from different weeks collapse to one. -/
theorem c1_deduplicacion :
    (∀ (evs : List EventoCrudo) (k : Clave),
      (deduplicar evs).filter (fun e => decide (claveEvento e = k)) =
        match evs.reverse.find? (fun e => decide (claveEvento e = k)) with
        | some ev0 => [ev0]
        | none => []) ∧
    (∀ e1 e2 : EventoCrudo, claveEvento e1 = claveEvento e2 → deduplicar [e1, e2] = [e2]) := by
  constructor
  · intro evs k
    unfold deduplicar
    rw [filtro_buscarClave _ k (claves_correctas_foldl evs) (claves_nodup_foldl evs)]
    rw [buscarClave_foldl]
    cases hf : evs.reverse.find? (fun e => decide (claveEvento e = k)) <;> simp [buscarClave]
  · intro e1 e2 h
    unfold deduplicar insertarClave
    simp [h, buscarClave]

def evPrueba : EventoCrudo :=
  ⟨⟨2025, 8, 4⟩, ⟨8, 0, 0⟩, ⟨9, 30, 0⟩, "Calculo I", "Calculo I / Sala 301"⟩

theorem c1_deduplicacion_testigo : deduplicar [evPrueba, evPrueba] = [evPrueba] :=
  c1_deduplicacion.2 evPrueba evPrueba rfl

/-! ## Shared Except helpers -/

theorem excBindOk {α β : Type} (a : α) (f : α → Except PyError β) :
    (Except.ok a : Except PyError α).bind f = f a := rfl

theorem excBindError {α β : Type} (e : PyError) (f : α → Except PyError β) :
    (Except.error e : Except PyError α).bind f = .error e := rfl

/-! ## C4: empty-result contract of the tabular strategy and the caller's
strategy-selection policy -/

/-- C4: when the range label resolves, the tabular strategy returns the empty
sequence (`.ok []`, not a failure) whenever no table or no header row is
found; the caller runs the tabular strategy first, returns its result
untouched whenever it is non-empty, and invokes the list-based strategy
exactly when the tabular strategy yields zero events — never running both and
merging. -/
theorem c4_contrato_seleccion :
    (∀ (s : Instantanea) (q : Nat × Nat × Nat × Nat),
      parse_fecha_rango (etiquetaEscritorio s) = .ok q → s.tabla = none →
      extraer_eventos_desde_html s = .ok []) ∧
    (∀ (s : Instantanea) (q : Nat × Nat × Nat × Nat) (t : Tabla),
      parse_fecha_rango (etiquetaEscritorio s) = .ok q → s.tabla = some t →
      t.encabezado = none → extraer_eventos_desde_html s = .ok []) ∧
    (∀ (s : Instantanea) (evs : List EventoCrudo),
      extraer_eventos_desde_html s = .ok evs → evs ≠ [] → procesarSemana s = .ok evs) ∧
    (∀ s : Instantanea,
      extraer_eventos_desde_html s = .ok [] →
      procesarSemana s = extraer_eventos_fallback_movil s) := by
  refine ⟨?_, ?_, ?_, ?_⟩
  · intro s q h ht
    obtain ⟨d1, d2, mes, anio⟩ := q
    unfold extraer_eventos_desde_html
    rw [h]
    simp [ht]
  · intro s q t h ht henc
    obtain ⟨d1, d2, mes, anio⟩ := q
    unfold extraer_eventos_desde_html
    rw [h]
    simp [ht, henc]
  · intro s evs h hne
    unfold procesarSemana
    rw [h]
    simp [hne]
  · intro s h
    unfold procesarSemana
    rw [h]
    simp

def instPrueba : Instantanea :=
  ⟨some "04 - 09 ago. 2025", none, none,
   [⟨some "Lunes 04", ["08:00 - 09:30 Calculo I / Sala 301"]⟩]⟩

theorem c4_contrato_seleccion_testigo :
    extraer_eventos_desde_html instPrueba = .ok [] ∧
    procesarSemana instPrueba = extraer_eventos_fallback_movil instPrueba ∧
    extraer_eventos_fallback_movil instPrueba = .ok [evPrueba] :=
  ⟨rfl, c4_contrato_seleccion.2.2.2 instPrueba rfl, rfl⟩

/-! ## C6: per-cell and per-item skip policy -/

theorem procesarCelda_fecha_none (fechas : List (Option Fecha)) (headers : List String)
    (anio mes : Nat) (tIni tFin : Hora) (idx : Nat) (td : String)
    (hres : resolverFecha fechas headers anio mes idx = .ok none) :
    procesarCelda fechas headers anio mes tIni tFin idx td = .ok none := by
  unfold procesarCelda
  by_cases hc : (limpiar_texto td == "" || esSinClases (limpiar_texto td).data) = true
  · simp [hc]
  · simp only [hc, Bool.false_eq_true, if_false]
    rw [hres]

theorem limpiar_vacio : limpiar_texto "" = "" := rfl

theorem procesarCeldas_set (fechas : List (Option Fecha)) (headers : List String)
    (anio mes : Nat) (tIni tFin : Hora) :
    ∀ (celdas : List String) (base j : Nat), j < celdas.length →
    resolverFecha fechas headers anio mes (base + j) = .ok none →
    procesarCeldas fechas headers anio mes tIni tFin base celdas =
      procesarCeldas fechas headers anio mes tIni tFin base (celdas.set j "") := by
  intro celdas
  induction celdas with
  | nil => intro base j hj _; cases (Nat.not_lt_zero j) hj
  | cons c resto ih =>
    intro base j hj hres
    cases j with
    | zero =>
      simp only [List.set_cons_zero]
      unfold procesarCeldas
      rw [procesarCelda_fecha_none fechas headers anio mes tIni tFin base c
        (by simpa using hres)]
      rw [procesarCelda_fecha_none fechas headers anio mes tIni tFin base ""
        (by simpa using hres)]
    | succ j2 =>
      simp only [List.set_cons_succ]
      unfold procesarCeldas
      have hres2 : resolverFecha fechas headers anio mes ((base + 1) + j2) = .ok none := by
        have : (base + 1) + j2 = base + (j2 + 1) := by omega
        rw [this]
        exact hres
      rw [ih (base + 1) j2 (by simpa using hj) hres2]

/-- C6: in both strategies a cell or item whose cleaned text is empty or
starts (case-insensitively) with the "sin clases" marker emits no raw event;
and in the tabular strategy a cell whose date resolves neither through the
column map nor through the per-cell header fallback is silently dropped (it
behaves exactly like an empty cell) while the remaining cells of the row are
still processed. -/
theorem c6_politica_omision :
    (∀ (fechas : List (Option Fecha)) (headers : List String) (anio mes : Nat)
       (tIni tFin : Hora) (idx : Nat) (td : String),
      limpiar_texto td = "" ∨ esSinClases (limpiar_texto td).data = true →
      procesarCelda fechas headers anio mes tIni tFin idx td = .ok none) ∧
    (∀ (f : Fecha) (item : String),
      limpiar_texto item = "" ∨ esSinClases (limpiar_texto item).data = true →
      procesarItem f item = .ok none) ∧
    (∀ (fechas : List (Option Fecha)) (headers : List String) (anio mes : Nat)
       (tIni tFin : Hora) (idx : Nat) (td : String),
      resolverFecha fechas headers anio mes idx = .ok none →
      procesarCelda fechas headers anio mes tIni tFin idx td = .ok none) ∧
    (∀ (fechas : List (Option Fecha)) (headers : List String) (anio mes : Nat)
       (tIni tFin : Hora) (celdas : List String) (j : Nat), j < celdas.length →
      resolverFecha fechas headers anio mes j = .ok none →
      procesarCeldas fechas headers anio mes tIni tFin 0 celdas =
        procesarCeldas fechas headers anio mes tIni tFin 0 (celdas.set j "")) := by
  refine ⟨?_, ?_, ?_, ?_⟩
  · intro fechas headers anio mes tIni tFin idx td h
    unfold procesarCelda
    rcases h with h | h <;> simp [h]
  · intro f item h
    unfold procesarItem
    rcases h with h | h <;> simp [h]
  · intro fechas headers anio mes tIni tFin idx td h
    exact procesarCelda_fecha_none fechas headers anio mes tIni tFin idx td h
  · intro fechas headers anio mes tIni tFin celdas j hj hres
    exact procesarCeldas_set fechas headers anio mes tIni tFin celdas 0 j hj
      (by simpa using hres)

theorem c6_politica_omision_testigo :
    procesarCelda [some ⟨2025, 8, 4⟩] ["Lunes 04"] 2025 8 ⟨8, 0, 0⟩ ⟨9, 30, 0⟩ 0 "Sin clases" =
      .ok none ∧
    procesarItem ⟨2025, 8, 4⟩ "sin clases" = .ok none ∧
    procesarCeldas [] ["Lunes"] 2025 8 ⟨8, 0, 0⟩ ⟨9, 30, 0⟩ 0 ["Taller X", "Calculo I"] =
      procesarCeldas [] ["Lunes"] 2025 8 ⟨8, 0, 0⟩ ⟨9, 30, 0⟩ 0 ["", "Calculo I"] :=
  ⟨c6_politica_omision.1 _ _ _ _ _ _ _ _ (Or.inr rfl),
   c6_politica_omision.2.1 _ _ (Or.inr rfl),
   c6_politica_omision.2.2.2 _ _ _ _ _ _ _ 0 (by decide) rfl⟩

/-! ## C10: an invalid header day number aborts the whole week -/

theorem construirFechas_error (anio mes : Nat) :
    ∀ headers : List String,
    (∃ h0 ∈ headers, ∃ d0, numeroDia h0.data = some d0 ∧ fechaValida anio mes d0 = false) →
    ∃ e, construirFechas anio mes headers = .error e := by
  intro headers
  induction headers with
  | nil => rintro ⟨h0, hmem, _⟩; cases hmem
  | cons h hs ih =>
    rintro ⟨h0, hmem, d0, hnum, hval⟩
    rcases List.mem_cons.mp hmem with rfl | hmem2
    · refine ⟨.fechaInvalida anio mes d0, ?_⟩
      unfold construirFechas crearFecha
      rw [hnum]
      simp [hval]
    · cases hnum2 : numeroDia h.data with
      | none =>
        obtain ⟨e, he⟩ := ih ⟨h0, hmem2, d0, hnum, hval⟩
        refine ⟨e, ?_⟩
        unfold construirFechas
        rw [hnum2, he]
      | some d =>
        by_cases hv : fechaValida anio mes d = true
        · obtain ⟨e, he⟩ := ih ⟨h0, hmem2, d0, hnum, hval⟩
          refine ⟨e, ?_⟩
          unfold construirFechas crearFecha
          rw [hnum2]
          simp [hv, he]
        · refine ⟨.fechaInvalida anio mes d, ?_⟩
          unfold construirFechas crearFecha
          rw [hnum2]
          simp [hv]

/-- C10: for every snapshot whose week label parses but where some weekday
header cell carries a day number that is not a valid day of the label's month
and year, the tabular extractor raises (returns an error) while building the
column-to-date map — the header lies outside the per-cell skip policy, so the
whole week's extraction yields no events instead of dropping only that
column. -/
theorem c10_encabezado_invalido (s : Instantanea) (t : Tabla) (celdasEnc : List String)
    (d1 d2 mes anio : Nat) (h0 : String) (dia : Nat)
    (hp : parse_fecha_rango (etiquetaEscritorio s) = .ok (d1, d2, mes, anio))
    (ht : s.tabla = some t) (henc : t.encabezado = some celdasEnc)
    (hmem : h0 ∈ celdasEnc.drop 1) (hnum : numeroDia (limpiar_texto h0).data = some dia)
    (hval : fechaValida anio mes dia = false) :
    ∃ e, extraer_eventos_desde_html s = .error e := by
  have hex : ∃ hh ∈ (celdasEnc.drop 1).map limpiar_texto,
      ∃ d0, numeroDia hh.data = some d0 ∧ fechaValida anio mes d0 = false :=
    ⟨limpiar_texto h0, List.mem_map_of_mem limpiar_texto hmem, dia, hnum, hval⟩
  obtain ⟨e, he⟩ := construirFechas_error anio mes _ hex
  refine ⟨e, ?_⟩
  unfold extraer_eventos_desde_html
  rw [hp]
  simp only [ht, henc]
  rw [he]

theorem c10_encabezado_invalido_testigo :
    ∃ e, extraer_eventos_desde_html
      ⟨some "01 - 06 sep. 2025", none, some ⟨some ["Horas", "Mar 31"], []⟩, []⟩ = .error e :=
  c10_encabezado_invalido _ ⟨some ["Horas", "Mar 31"], []⟩ ["Horas", "Mar 31"]
    1 6 9 2025 "Mar 31" 31 rfl rfl rfl (by decide) rfl rfl

/-! ## C7: a label failure is fatal for the week and for the run, and in every
such case the fallback strategy fails on the label as well -/

theorem parse_vacia : parse_fecha_rango "" = .error (.formatoRango "") := rfl

theorem etiqueta_movil_falla (s : Instantanea) (e : PyError)
    (h : parse_fecha_rango (etiquetaEscritorio s) = .error e) :
    ∃ e2, parse_fecha_rango (etiquetaMovil s) = .error e2 := by
  unfold etiquetaEscritorio at h
  unfold etiquetaMovil
  by_cases he : textoEtiqueta s.etiquetaRango = ""
  · rw [he]
    exact ⟨.formatoRango "", parse_vacia⟩
  · have hbeq : (textoEtiqueta s.etiquetaRango == "") = false := by
      simp [he]
    rw [hbeq] at h
    simp only [Bool.false_eq_true, if_false] at h
    exact ⟨e, h⟩

/-- C7 (as realized by the code): when the Date-Range Resolver fails on a
week's range label in the tabular strategy, the week's extraction fails and
the error propagates fatally to the whole run — and in every such case the
fallback strategy's own label read also fails (the tabular label recovery
reads strictly more than the fallback), so the failure is fatal exactly in
the claimed only-when-the-fallback-also-fails situation; likewise, when the
tabular strategy returns zero events and the fallback then fails on the
label, that failure is fatal for the run. -/
theorem c7_fallo_resolutor :
    (∀ (s : Instantanea) (e : PyError) (resto : List Instantanea),
      parse_fecha_rango (etiquetaEscritorio s) = .error e →
      extraer_eventos_desde_html s = .error e ∧
      procesarSemana s = .error e ∧
      (∃ e2, parse_fecha_rango (etiquetaMovil s) = .error e2) ∧
      extraerSemanas (s :: resto) = .error e) ∧
    (∀ (s : Instantanea) (e : PyError) (resto : List Instantanea),
      extraer_eventos_desde_html s = .ok [] → extraer_eventos_fallback_movil s = .error e →
      extraerSemanas (s :: resto) = .error e) := by
  constructor
  · intro s e resto h
    have hdesk : extraer_eventos_desde_html s = .error e := by
      unfold extraer_eventos_desde_html
      rw [h]
    have hsem : procesarSemana s = .error e := by
      unfold procesarSemana
      rw [hdesk]
    refine ⟨hdesk, hsem, etiqueta_movil_falla s e h, ?_⟩
    unfold extraerSemanas
    rw [hsem]
  · intro s e resto hok hmov
    have hsem : procesarSemana s = .error e := by
      unfold procesarSemana
      rw [hok]
      simpa using hmov
    unfold extraerSemanas
    rw [hsem]

def instMala : Instantanea := ⟨some "horario", none, none, []⟩

theorem c7_fallo_resolutor_testigo :
    extraerSemanas [instMala, instPrueba] = .error (.formatoRango "horario") ∧
    extraerSemanas [instPrueba] = .ok [evPrueba] :=
  ⟨((c7_fallo_resolutor.1 instMala (.formatoRango "horario") [instPrueba]) rfl).2.2.2, rfl⟩

/-! ## C5: the time-block parser on well-formed spans -/

theorem digitChar_isDigit (k : Nat) (hk : k ≤ 9) : (digitChar k).isDigit = true := by
  interval_cases k <;> decide

theorem valDigito_digitChar (k : Nat) (hk : k ≤ 9) : valDigito (digitChar k) = k := by
  interval_cases k <;> decide

theorem digitChar_no_dos_puntos (k : Nat) (hk : k ≤ 9) : ¬ digitChar k = ':' := by
  interval_cases k <;> decide

theorem digitChar_no_espacio (k : Nat) (hk : k ≤ 9) : pyIsSpace (digitChar k) = false := by
  interval_cases k <;> decide

theorem decReprAux_uno (fuel n : Nat) (h : n < 10) : decReprAux (fuel + 1) n = [digitChar n] := by
  simp [decReprAux, h]

theorem decRepr_uno (n : Nat) (h : n < 10) : decRepr n = [digitChar n] :=
  decReprAux_uno n n h

theorem decRepr_dos (n : Nat) (h1 : 10 ≤ n) (h2 : n ≤ 99) :
    decRepr n = [digitChar (n / 10), digitChar (n % 10)] := by
  obtain ⟨m, rfl⟩ : ∃ m, n = m + 1 := ⟨n - 1, by omega⟩
  show decReprAux (m + 1 + 1) (m + 1) = _
  have hnl : ¬ m + 1 < 10 := by omega
  have hd : (m + 1) / 10 < 10 := by omega
  simp [decReprAux, hnl, hd]

theorem valDigitos_decRepr (n : Nat) (h : n ≤ 99) : valDigitos (decRepr n) = n := by
  by_cases h10 : n < 10
  · rw [decRepr_uno n h10]
    show 10 * 0 + valDigito (digitChar n) = n
    rw [valDigito_digitChar n (by omega)]
    omega
  · rw [decRepr_dos n (by omega) h]
    show 10 * (10 * 0 + valDigito (digitChar (n / 10))) + valDigito (digitChar (n % 10)) = n
    rw [valDigito_digitChar _ (by omega), valDigito_digitChar _ (by omega)]
    omega

theorem valDigitos_pad2 (n : Nat) (h : n ≤ 99) : valDigitos (pad2 n) = n := by
  show 10 * (10 * 0 + valDigito (digitChar (n / 10))) + valDigito (digitChar (n % 10)) = n
  rw [valDigito_digitChar _ (by omega), valDigito_digitChar _ (by omega)]
  omega

theorem decRepr_digitos (n : Nat) (h : n ≤ 99) : ∀ c ∈ decRepr n, c.isDigit = true := by
  by_cases h10 : n < 10
  · rw [decRepr_uno n h10]
    intro c hc
    rw [List.mem_singleton.mp hc]
    exact digitChar_isDigit n (by omega)
  · rw [decRepr_dos n (by omega) h]
    intro c hc
    rcases List.mem_cons.mp hc with rfl | hc2
    · exact digitChar_isDigit _ (by omega)
    · rw [List.mem_singleton.mp hc2]
      exact digitChar_isDigit _ (by omega)

theorem pad2_digitos (n : Nat) (h : n ≤ 99) : ∀ c ∈ pad2 n, c.isDigit = true := by
  intro c hc
  rcases List.mem_cons.mp hc with rfl | hc2
  · exact digitChar_isDigit _ (by omega)
  · rw [List.mem_singleton.mp hc2]
    exact digitChar_isDigit _ (by omega)

theorem decRepr_no_vacio (n : Nat) (h : n ≤ 99) : decRepr n ≠ [] := by
  by_cases h10 : n < 10
  · rw [decRepr_uno n h10]; simp
  · rw [decRepr_dos n (by omega) h]; simp

theorem decRepr_sin_dos_puntos (n : Nat) (h : n ≤ 99) : ∀ c ∈ decRepr n, ¬ c = ':' := by
  intro c hc heq
  have := decRepr_digitos n h c hc
  rw [heq] at this
  cases this

theorem pad2_sin_dos_puntos (n : Nat) (h : n ≤ 99) : ∀ c ∈ pad2 n, ¬ c = ':' := by
  intro c hc heq
  have := pad2_digitos n h c hc
  rw [heq] at this
  cases this

theorem tomarGrupoHora_forma (h m : Nat) (resto : List Char) (hh : h ≤ 23) (hm : m ≤ 99) :
    tomarGrupoHora (decRepr h ++ ':' :: (pad2 m ++ resto)) =
      some (decRepr h ++ ':' :: pad2 m, resto) := by
  have hm1 : m / 10 ≤ 9 := by omega
  have hm2 : m % 10 ≤ 9 := by omega
  by_cases h10 : h < 10
  · rw [decRepr_uno h h10]
    show tomarGrupoHora (digitChar h :: ':' :: (digitChar (m / 10) :: digitChar (m % 10) :: resto)) = _
    simp [tomarGrupoHora, digitChar_isDigit h (by omega), digitChar_isDigit _ hm1,
      digitChar_isDigit _ hm2, decRepr_uno h h10, pad2]
  · rw [decRepr_dos h (by omega) (by omega)]
    have hq : h / 10 ≤ 9 := by omega
    have hr : h % 10 ≤ 9 := by omega
    show tomarGrupoHora (digitChar (h / 10) :: digitChar (h % 10) ::
      (':' :: (digitChar (m / 10) :: digitChar (m % 10) :: resto))) = _
    simp [tomarGrupoHora, digitChar_isDigit _ hq, digitChar_isDigit _ hr,
      digitChar_isDigit _ hm1, digitChar_isDigit _ hm2, pad2]

theorem dividirDosPuntos_sin (l : List Char) (h : ∀ c ∈ l, ¬ c = ':') :
    dividirDosPuntos l = [l] := by
  induction l with
  | nil => rfl
  | cons c resto ih =>
    have hc : ¬ c = ':' := h c (by simp)
    have ihr := ih (fun d hd => h d (by simp [hd]))
    simp only [dividirDosPuntos, hc, if_false, ihr]

theorem dividirDosPuntos_grupo (a b : List Char) (ha : ∀ c ∈ a, ¬ c = ':') :
    dividirDosPuntos (a ++ ':' :: b) = a :: dividirDosPuntos b := by
  induction a with
  | nil => simp [dividirDosPuntos]
  | cons c a2 ih =>
    have hc : ¬ c = ':' := ha c (by simp)
    have iha := ih (fun d hd => ha d (by simp [hd]))
    show dividirDosPuntos (c :: (a2 ++ ':' :: b)) = (c :: a2) :: dividirDosPuntos b
    rw [dividirDosPuntos, if_neg hc, iha]

theorem hhmm_to_time_forma (h m : Nat) (hh : h ≤ 23) (hm : m ≤ 99) :
    hhmm_to_time ((decRepr h ++ ':' :: pad2 m).asString) = crearHora h m := by
  have hint1 : pyInt (decRepr h) = .ok h := by
    unfold pyInt
    have hne : decRepr h ≠ [] := decRepr_no_vacio h (by omega)
    have hall : (decRepr h).all (·.isDigit) = true :=
      List.all_eq_true.mpr (fun c hc => decRepr_digitos h (by omega) c hc)
    simp [hne, hall, valDigitos_decRepr h (by omega)]
  have hint2 : pyInt (pad2 m) = .ok m := by
    unfold pyInt
    have hall : (pad2 m).all (·.isDigit) = true :=
      List.all_eq_true.mpr (fun c hc => pad2_digitos m hm c hc)
    have hne : pad2 m ≠ [] := by simp [pad2]
    simp [hne, hall, valDigitos_pad2 m hm]
  unfold hhmm_to_time
  have hdata : ((decRepr h ++ ':' :: pad2 m).asString).data = decRepr h ++ ':' :: pad2 m := rfl
  rw [hdata, dividirDosPuntos_grupo _ _ (decRepr_sin_dos_puntos h (by omega)),
    dividirDosPuntos_sin _ (pad2_sin_dos_puntos m hm)]
  simp [hint1, hint2]

/-- The literal "H:MM - H:MM" span string (H unpadded as the portal prints
hours, MM two-digit). -/
def cadenaBloque (h1 m1 h2 m2 : Nat) : String :=
  (decRepr h1 ++ ':' :: pad2 m1 ++ ' ' :: '-' :: ' ' :: (decRepr h2 ++ ':' :: pad2 m2)).asString

theorem pyIsSpace_blanco : pyIsSpace ' ' = true := rfl

theorem pyIsSpace_guion : pyIsSpace '-' = false := rfl

theorem coincidirBloque_forma (h1 m1 h2 m2 : Nat)
    (hh1 : h1 ≤ 23) (hm1 : m1 ≤ 99) (hh2 : h2 ≤ 23) (hm2 : m2 ≤ 99) :
    coincidirBloque (cadenaBloque h1 m1 h2 m2).data =
      some (decRepr h1 ++ ':' :: pad2 m1, decRepr h2 ++ ':' :: pad2 m2) := by
  have hdrop1 : (' ' :: '-' :: ' ' :: (decRepr h2 ++ ':' :: pad2 m2)).dropWhile pyIsSpace =
      '-' :: ' ' :: (decRepr h2 ++ ':' :: pad2 m2) := by
    simp [List.dropWhile_cons, pyIsSpace_blanco, pyIsSpace_guion]
  have hdrop2 : (' ' :: (decRepr h2 ++ ':' :: pad2 m2)).dropWhile pyIsSpace =
      decRepr h2 ++ ':' :: pad2 m2 := by
    by_cases h10 : h2 < 10
    · rw [decRepr_uno h2 h10]
      simp [List.dropWhile_cons, pyIsSpace_blanco, digitChar_no_espacio h2 (by omega)]
    · rw [decRepr_dos h2 (by omega) (by omega)]
      simp [List.dropWhile_cons, pyIsSpace_blanco, digitChar_no_espacio (h2 / 10) (by omega)]
  have hGrupo2 : tomarGrupoHora (decRepr h2 ++ ':' :: pad2 m2) =
      some (decRepr h2 ++ ':' :: pad2 m2, []) := by
    have hg := tomarGrupoHora_forma h2 m2 [] hh2 hm2
    simpa using hg
  unfold coincidirBloque cadenaBloque
  have hdata : (((decRepr h1 ++ ':' :: pad2 m1 ++ ' ' :: '-' :: ' ' ::
      (decRepr h2 ++ ':' :: pad2 m2)).asString)).data =
      decRepr h1 ++ ':' :: (pad2 m1 ++ ' ' :: '-' :: ' ' ::
      (decRepr h2 ++ ':' :: pad2 m2)) := by
    show decRepr h1 ++ ':' :: pad2 m1 ++ _ = _
    simp
  rw [hdata, tomarGrupoHora_forma h1 m1 _ hh1 hm1]
  simp [hdrop1, hdrop2, hGrupo2]

/-- C5 (amended): for every span "H:MM - H:MM" with 0 ≤ H ≤ 23 and 0 ≤ MM ≤ 59
the Time-Block Parser returns both times with zero seconds and no error;
start < end is not enforced (equal and reversed spans are accepted); but —
contrary to the claim's "no upper bound validation beyond integer parse" —
the time constructor does validate the ranges, raising ValueError for an
out-of-range minute even when H ≤ 23. -/
theorem c5_bloque_horario :
    (∀ h1 m1 h2 m2 : Nat, h1 ≤ 23 → m1 ≤ 59 → h2 ≤ 23 → m2 ≤ 59 →
      leerBloque (cadenaBloque h1 m1 h2 m2) =
        .ok (some (⟨h1, m1, 0⟩, ⟨h2, m2, 0⟩))) ∧
    leerBloque "10:00 - 10:00" = .ok (some (⟨10, 0, 0⟩, ⟨10, 0, 0⟩)) ∧
    leerBloque "10:00 - 09:00" = .ok (some (⟨10, 0, 0⟩, ⟨9, 0, 0⟩)) ∧
    (∀ h m : Nat, h ≤ 23 → 60 ≤ m → m ≤ 99 →
      hhmm_to_time ((decRepr h ++ ':' :: pad2 m).asString) = .error (.horaInvalida h m)) := by
  refine ⟨?_, rfl, rfl, ?_⟩
  · intro h1 m1 h2 m2 hh1 hm1 hh2 hm2
    unfold leerBloque
    rw [coincidirBloque_forma h1 m1 h2 m2 hh1 (by omega) hh2 (by omega)]
    simp [hhmm_to_time_forma h1 m1 hh1 (by omega), hhmm_to_time_forma h2 m2 hh2 (by omega),
      crearHora, hh1, hm1, hh2, hm2]
  · intro h m hh hm60 hm99
    rw [hhmm_to_time_forma h m hh hm99]
    have hno : ¬ m ≤ 59 := by omega
    simp [crearHora, hno]

theorem c5_bloque_horario_testigo :
    leerBloque (cadenaBloque 8 0 9 30) = .ok (some (⟨8, 0, 0⟩, ⟨9, 30, 0⟩)) ∧
    hhmm_to_time ((decRepr 0 ++ ':' :: pad2 75).asString) = .error (.horaInvalida 0 75) :=
  ⟨c5_bloque_horario.1 8 0 9 30 (by decide) (by decide) (by decide) (by decide),
   c5_bloque_horario.2.2.2 0 75 (by decide) (by decide) (by decide)⟩

/-- C5 counterexample: "0:99 - 0:99" has the claimed shape "H:MM - H:MM" with
H = 0 ≤ 23, yet the Time-Block Parser raises (ValueError from the time
constructor) instead of returning times — the claim's "without raising any
exception" and "no upper bound validation beyond integer parse" fail. -/
theorem c5_bloque_horario_contraejemplo :
    leerBloque "0:99 - 0:99" = .error (.horaInvalida 0 99) ∧
    hhmm_to_time "0:99" = .error (.horaInvalida 0 99) :=
  ⟨rfl, rfl⟩

/-! ## C8: shared normalization and title derivation across the strategies -/

def soloEspacioSimple (l : List Char) : Bool := l.all (fun c => !(pyIsSpace c) || c == ' ')

def sinDobleEspacio : List Char → Bool
  | [] => true
  | [_] => true
  | c :: d :: resto => !(c == ' ' && d == ' ') && sinDobleEspacio (d :: resto)

def empiezaCon (x : Char) : List Char → Bool
  | [] => false
  | c :: _ => c == x

/-- A cleaned content string: whitespace occurs only as single internal
blanks (what `limpiar_texto` guarantees). -/
def esLimpio (l : List Char) : Bool :=
  soloEspacioSimple l && sinDobleEspacio l && !(empiezaCon ' ' l) && !(empiezaCon ' ' l.reverse)

/-- Modelled from the spec: the title as "the first \"/\"-delimited segment of
the cell's cleaned text" read literally — the segment before the first slash
(the code instead splits on the three-character separator " / "). -/
def resumenSegunSpec (contenido : List Char) : List Char :=
  contenido.takeWhile (fun c => !(c == '/'))

theorem no_espacio_no_blanco (c : Char) (h : pyIsSpace c = false) : (c == ' ') = false := by
  revert h
  unfold pyIsSpace
  cases hc : c == ' ' <;> simp

theorem sinDoble_cola (c : Char) (l : List Char) (h : sinDobleEspacio (c :: l) = true) :
    sinDobleEspacio l = true := by
  cases l with
  | nil => rfl
  | cons d r =>
    rw [sinDobleEspacio] at h
    simp only [Bool.and_eq_true] at h
    exact h.2

theorem sinDoble_cons (c : Char) (l : List Char) (h1 : sinDobleEspacio l = true)
    (h2 : (c == ' ') = false ∨ empiezaCon ' ' l = false) : sinDobleEspacio (c :: l) = true := by
  cases l with
  | nil => rfl
  | cons d r =>
    show (!(c == ' ' && d == ' ') && sinDobleEspacio (d :: r)) = true
    rcases h2 with h2 | h2
    · simp [h2, h1]
    · have hd : (d == ' ') = false := h2
      simp [hd, h1]

theorem colapsarAux_solo (l : List Char) : ∀ b, soloEspacioSimple (colapsarAux b l) = true := by
  induction l with
  | nil => intro b; rfl
  | cons c resto ih =>
    intro b
    unfold colapsarAux
    by_cases hc : pyIsSpace c = true
    · rw [if_pos hc]
      cases b
      · show soloEspacioSimple (' ' :: colapsarAux true resto) = true
        simp only [soloEspacioSimple, List.all_cons]
        have := ih true
        simp only [soloEspacioSimple] at this
        simp [this]
      · exact ih true
    · have hcf : pyIsSpace c = false := by revert hc; cases pyIsSpace c <;> simp
      rw [if_neg hc]
      show soloEspacioSimple (c :: colapsarAux false resto) = true
      simp only [soloEspacioSimple, List.all_cons]
      have := ih false
      simp only [soloEspacioSimple] at this
      simp [this, hcf]

theorem colapsarAux_true_inicial (l : List Char) :
    empiezaCon ' ' (colapsarAux true l) = false := by
  induction l with
  | nil => rfl
  | cons c resto ih =>
    unfold colapsarAux
    by_cases hc : pyIsSpace c = true
    · rw [if_pos hc, if_pos rfl]
      exact ih
    · have hcf : pyIsSpace c = false := by revert hc; cases pyIsSpace c <;> simp
      rw [if_neg hc]
      show (c == ' ') = false
      exact no_espacio_no_blanco c hcf

theorem colapsarAux_sinDoble (l : List Char) : ∀ b, sinDobleEspacio (colapsarAux b l) = true := by
  induction l with
  | nil => intro b; rfl
  | cons c resto ih =>
    intro b
    unfold colapsarAux
    by_cases hc : pyIsSpace c = true
    · rw [if_pos hc]
      cases b
      · show sinDobleEspacio (' ' :: colapsarAux true resto) = true
        exact sinDoble_cons ' ' _ (ih true) (Or.inr (colapsarAux_true_inicial resto))
      · exact ih true
    · have hcf : pyIsSpace c = false := by revert hc; cases pyIsSpace c <;> simp
      rw [if_neg hc]
      exact sinDoble_cons c _ (ih false) (Or.inl (no_espacio_no_blanco c hcf))

theorem solo_dropWhile (p : Char → Bool) (l : List Char) (h : soloEspacioSimple l = true) :
    soloEspacioSimple (l.dropWhile p) = true := by
  induction l with
  | nil => exact h
  | cons c resto ih =>
    rw [List.dropWhile_cons]
    simp only [soloEspacioSimple, List.all_cons, Bool.and_eq_true] at h
    by_cases hc : p c = true
    · rw [if_pos hc]
      exact ih h.2
    · rw [if_neg hc]
      simp only [soloEspacioSimple, List.all_cons, Bool.and_eq_true]
      exact ⟨h.1, h.2⟩

theorem sinDoble_dropWhile (p : Char → Bool) (l : List Char) (h : sinDobleEspacio l = true) :
    sinDobleEspacio (l.dropWhile p) = true := by
  induction l with
  | nil => exact h
  | cons c resto ih =>
    rw [List.dropWhile_cons]
    by_cases hc : p c = true
    · rw [if_pos hc]
      exact ih (sinDoble_cola c resto h)
    · rw [if_neg hc]
      exact h

theorem dropWhile_cabeza (p : Char → Bool) (l : List Char) (c : Char) (resto : List Char)
    (h : l.dropWhile p = c :: resto) : p c = false := by
  induction l with
  | nil => cases h
  | cons a l2 ih =>
    rw [List.dropWhile_cons] at h
    by_cases ha : p a = true
    · rw [if_pos ha] at h
      exact ih h
    · rw [if_neg ha] at h
      cases h
      revert ha
      cases p c <;> simp

theorem quitarDer_prefijo (l : List Char) : ∃ suf, l = quitarDer l ++ suf := by
  induction l with
  | nil => exact ⟨[], rfl⟩
  | cons c resto ih =>
    unfold quitarDer
    cases hq : quitarDer resto with
    | nil =>
      by_cases hc : pyIsSpace c = true
      · rw [if_pos hc]
        exact ⟨c :: resto, rfl⟩
      · rw [if_neg hc]
        obtain ⟨suf, hsuf⟩ := ih
        rw [hq] at hsuf
        exact ⟨resto, by simp⟩
    | cons r rs =>
      obtain ⟨suf, hsuf⟩ := ih
      rw [hq] at hsuf
      refine ⟨suf, ?_⟩
      show c :: resto = c :: (r :: rs) ++ suf
      rw [hsuf]
      rfl

theorem sinDoble_prefijo (l1 l2 : List Char) (h : sinDobleEspacio (l1 ++ l2) = true) :
    sinDobleEspacio l1 = true := by
  induction l1 with
  | nil => rfl
  | cons c r ih =>
    cases r with
    | nil => rfl
    | cons d r2 =>
      rw [sinDobleEspacio]
      simp only [List.cons_append] at h
      rw [sinDobleEspacio] at h
      simp only [Bool.and_eq_true] at h
      obtain ⟨h1, h2⟩ := h
      have := ih (by simpa using h2)
      simp [h1, this]

theorem solo_prefijo (l1 l2 : List Char) (h : soloEspacioSimple (l1 ++ l2) = true) :
    soloEspacioSimple l1 = true := by
  simp only [soloEspacioSimple, List.all_append, Bool.and_eq_true] at h
  exact h.1

theorem empiezaCon_append (x : Char) (a b : List Char) (ha : a ≠ []) :
    empiezaCon x (a ++ b) = empiezaCon x a := by
  cases a with
  | nil => exact absurd rfl ha
  | cons c r => rfl

theorem quitarDer_cola (l : List Char) : empiezaCon ' ' (quitarDer l).reverse = false := by
  induction l with
  | nil => rfl
  | cons c resto ih =>
    unfold quitarDer
    cases hq : quitarDer resto with
    | nil =>
      by_cases hc : pyIsSpace c = true
      · rw [if_pos hc]
        rfl
      · have hcf : pyIsSpace c = false := by revert hc; cases pyIsSpace c <;> simp
        rw [if_neg hc]
        show empiezaCon ' ' [c] = false
        exact no_espacio_no_blanco c hcf
    | cons r rs =>
      rw [hq] at ih
      show empiezaCon ' ' ((c :: r :: rs).reverse) = false
      rw [List.reverse_cons]
      rw [empiezaCon_append ' ' (r :: rs).reverse [c] (by simp)]
      exact ih

theorem quitarDer_cabeza (c : Char) (l : List Char) (d : Char) (resto : List Char)
    (h : quitarDer (c :: l) = d :: resto) : d = c := by
  unfold quitarDer at h
  cases hq : quitarDer l with
  | nil =>
    rw [hq] at h
    by_cases hc : pyIsSpace c = true
    · rw [if_pos hc] at h
      cases h
    · rw [if_neg hc] at h
      cases h
      rfl
  | cons r rs =>
    rw [hq] at h
    cases h
    rfl

theorem quitarDer_id (l : List Char) (h : ∀ c, l.getLast? = some c → pyIsSpace c = false) :
    quitarDer l = l := by
  induction l with
  | nil => rfl
  | cons c resto ih =>
    unfold quitarDer
    cases resto with
    | nil =>
      have hc := h c rfl
      rw [if_neg (by rw [hc]; simp)]
      rfl
    | cons d r2 =>
      have hr : quitarDer (d :: r2) = d :: r2 := by
        apply ih
        intro x hx
        apply h
        rw [List.getLast?_cons_cons]
        exact hx
      rw [hr]

theorem strip_id_de (l : List Char)
    (hcab : ∀ c, l.head? = some c → pyIsSpace c = false)
    (hcola : ∀ c, l.getLast? = some c → pyIsSpace c = false) :
    pyStrip l = l := by
  have h1 : quitarIzq l = l := by
    cases l with
    | nil => rfl
    | cons c r =>
      unfold quitarIzq
      rw [List.dropWhile_cons, if_neg (by rw [hcab c rfl]; simp)]
  rw [pyStrip, h1, quitarDer_id l hcola]

theorem esLimpio_partes (l : List Char) (h : esLimpio l = true) :
    soloEspacioSimple l = true ∧ sinDobleEspacio l = true ∧
    empiezaCon ' ' l = false ∧ empiezaCon ' ' l.reverse = false := by
  simp only [esLimpio, Bool.and_eq_true, Bool.not_eq_true'] at h
  exact ⟨h.1.1.1, h.1.1.2, h.1.2, h.2⟩

theorem esLimpio_de_partes (l : List Char)
    (h1 : soloEspacioSimple l = true) (h2 : sinDobleEspacio l = true)
    (h3 : empiezaCon ' ' l = false) (h4 : empiezaCon ' ' l.reverse = false) :
    esLimpio l = true := by
  simp [esLimpio, h1, h2, h3, h4]

theorem esLimpio_limpiar (x : String) : esLimpio (limpiar_texto x).data = true := by
  have hdata : (limpiar_texto x).data = pyStrip (colapsar (unescape x.data)) := rfl
  rw [hdata]
  set L := colapsar (unescape x.data) with hL
  have hsolo : soloEspacioSimple L = true := colapsarAux_solo (unescape x.data) false
  have hsd : sinDobleEspacio L = true := colapsarAux_sinDoble (unescape x.data) false
  have hsolo2 : soloEspacioSimple (quitarIzq L) = true := solo_dropWhile _ L hsolo
  have hsd2 : sinDobleEspacio (quitarIzq L) = true := sinDoble_dropWhile _ L hsd
  obtain ⟨suf, hsuf⟩ := quitarDer_prefijo (quitarIzq L)
  apply esLimpio_de_partes
  · rw [hsuf] at hsolo2
    exact solo_prefijo _ _ hsolo2
  · rw [hsuf] at hsd2
    exact sinDoble_prefijo _ _ hsd2
  · show empiezaCon ' ' (pyStrip L) = false
    rw [pyStrip]
    cases hqi : quitarIzq L with
    | nil => rfl
    | cons c r =>
      have hc : pyIsSpace c = false := dropWhile_cabeza pyIsSpace L c r hqi
      cases hqd : quitarDer (c :: r) with
      | nil => rfl
      | cons d r2 =>
        have hd : d = c := quitarDer_cabeza c r d r2 hqd
        show (d == ' ') = false
        rw [hd]
        exact no_espacio_no_blanco c hc
  · exact quitarDer_cola (quitarIzq L)

theorem dividirSep_no_vacio (l : List Char) : dividirSep l ≠ [] := by
  induction l using dividirSep.induct with
  | case1 => simp [dividirSep]
  | case2 c => simp [dividirSep]
  | case3 c d => simp [dividirSep]
  | case4 c d e resto hsep ih =>
    unfold dividirSep
    rw [if_pos hsep]
    simp
  | case5 c d e resto hns hdiv ih => exact absurd hdiv ih
  | case6 c d e resto hns p ps hdiv ih =>
    unfold dividirSep
    rw [if_neg hns, hdiv]
    simp

theorem dividirSep_descomp (l : List Char) :
    ∀ p ps, dividirSep l = p :: ps →
      (ps = [] ∧ l = p) ∨
      (∃ resto, l = p ++ ' ' :: '/' :: ' ' :: resto ∧ dividirSep resto = ps) := by
  induction l using dividirSep.induct with
  | case1 =>
    intro p ps h
    rw [dividirSep] at h
    cases h
    exact Or.inl ⟨rfl, rfl⟩
  | case2 c =>
    intro p ps h
    rw [dividirSep] at h
    cases h
    exact Or.inl ⟨rfl, rfl⟩
  | case3 c d =>
    intro p ps h
    rw [dividirSep] at h
    cases h
    exact Or.inl ⟨rfl, rfl⟩
  | case4 c d e resto hsep ih =>
    intro p ps h
    unfold dividirSep at h
    rw [if_pos hsep] at h
    cases h
    obtain ⟨rfl, rfl, rfl⟩ := hsep
    exact Or.inr ⟨resto, rfl, rfl⟩
  | case5 c d e resto hns hdiv ih => exact absurd hdiv (dividirSep_no_vacio _)
  | case6 c d e resto hns p0 ps0 hdiv ih =>
    intro p ps h
    unfold dividirSep at h
    rw [if_neg hns, hdiv] at h
    cases h
    rcases ih p0 ps0 hdiv with ⟨hps, hresto⟩ | ⟨resto2, hr, hdr⟩
    · subst hps
      exact Or.inl ⟨rfl, by rw [hresto]⟩
    · exact Or.inr ⟨resto2, by rw [hr]; rfl, hdr⟩

theorem sinDoble_sin_infijo (b : List Char) :
    ∀ a : List Char, sinDobleEspacio (a ++ ' ' :: ' ' :: b) = false := by
  intro a
  induction a with
  | nil =>
    show sinDobleEspacio (' ' :: ' ' :: b) = false
    rw [sinDobleEspacio]
    simp
  | cons c a2 ih =>
    cases a2 with
    | nil =>
      show sinDobleEspacio (c :: ' ' :: ' ' :: b) = false
      rw [sinDobleEspacio]
      have hb : sinDobleEspacio (' ' :: ' ' :: b) = false := by
        rw [sinDobleEspacio]
        simp
      simp [hb]
    | cons d r =>
      show sinDobleEspacio (c :: d :: (r ++ ' ' :: ' ' :: b)) = false
      rw [sinDobleEspacio]
      simp only [List.cons_append] at ih
      simp [ih]

theorem mem_de_prefijo (c : Char) (l1 l2 : List Char) (h : c ∈ l1) : c ∈ l1 ++ l2 :=
  List.mem_append_left l2 h

theorem solo_miembro (l : List Char) (c : Char) (hs : soloEspacioSimple l = true)
    (hm : c ∈ l) (hw : pyIsSpace c = true) : c = ' ' := by
  simp only [soloEspacioSimple, List.all_eq_true] at hs
  have := hs c hm
  rw [hw] at this
  simp at this
  exact this

theorem limpio_extremos (l : List Char) (hsolo : soloEspacioSimple l = true)
    (hcab : empiezaCon ' ' l = false) :
    ∀ c, l.head? = some c → pyIsSpace c = false := by
  intro c hc
  cases l with
  | nil => cases hc
  | cons a r =>
    have hac : a = c := Option.some.inj hc
    subst hac
    by_cases hw : pyIsSpace a = true
    · have hae := solo_miembro _ a hsolo (by simp) hw
      have hfalse : (a == ' ') = false := hcab
      rw [hae] at hfalse
      simp at hfalse
    · revert hw
      cases pyIsSpace a <;> simp

theorem limpio_cola (l : List Char) (hsolo : soloEspacioSimple l = true)
    (hcola : empiezaCon ' ' l.reverse = false) :
    ∀ c, l.getLast? = some c → pyIsSpace c = false := by
  intro c hc
  by_cases hw : pyIsSpace c = true
  · have hmem : c ∈ l := List.mem_of_mem_getLast? (by rw [Option.mem_def]; exact hc)
    have hce := solo_miembro _ c hsolo hmem hw
    subst hce
    rw [← List.head?_reverse] at hc
    cases hrev : l.reverse with
    | nil =>
      rw [hrev] at hc
      cases hc
    | cons a r =>
      rw [hrev] at hc hcola
      have ha : a = ' ' := Option.some.inj hc
      have hfalse : (a == ' ') = false := hcola
      rw [ha] at hfalse
      simp at hfalse
  · revert hw
    cases pyIsSpace c <;> simp

/-- The key fact: the first " / "-segment of a cleaned non-empty string is
non-empty and strip-invariant, so both strategies pick it as the title. -/
theorem primera_parte (l p0 : List Char) (ps : List (List Char))
    (hlim : esLimpio l = true) (hne : l ≠ []) (hdiv : dividirSep l = p0 :: ps) :
    p0 ≠ [] ∧ pyStrip p0 = p0 := by
  obtain ⟨hsolo, hsd, hcab, hcola⟩ := esLimpio_partes l hlim
  rcases dividirSep_descomp l p0 ps hdiv with ⟨hps, hl⟩ | ⟨resto, hl, hdr⟩
  · rw [← hl]
    exact ⟨hne, strip_id_de l (limpio_extremos l hsolo hcab) (limpio_cola l hsolo hcola)⟩
  · have hp0ne : p0 ≠ [] := by
      intro h0
      subst h0
      rw [hl] at hcab
      simp [empiezaCon] at hcab
    have hsolop : soloEspacioSimple p0 = true := by
      rw [hl] at hsolo
      exact solo_prefijo _ _ hsolo
    have hcabp : empiezaCon ' ' p0 = false := by
      rw [hl, empiezaCon_append ' ' p0 _ hp0ne] at hcab
      exact hcab
    have hcolap : ∀ c, p0.getLast? = some c → pyIsSpace c = false := by
      intro c hc
      by_cases hw : pyIsSpace c = true
      · have hmem : c ∈ l := by
          rw [hl]
          exact mem_de_prefijo c p0 _
            (List.mem_of_mem_getLast? (by rw [Option.mem_def]; exact hc))
        have hce := solo_miembro _ c hsolo hmem hw
        subst hce
        have hsplit : p0.dropLast ++ [' '] = p0 :=
          List.dropLast_append_getLast? ' ' (by rw [Option.mem_def]; exact hc)
        rw [hl, ← hsplit] at hsd
        have hassoc : (p0.dropLast ++ [' ']) ++ ' ' :: '/' :: ' ' :: resto =
            p0.dropLast ++ ' ' :: ' ' :: ('/' :: ' ' :: resto) := by simp
        rw [hassoc, sinDoble_sin_infijo _ p0.dropLast] at hsd
        simp at hsd
      · revert hw
        cases pyIsSpace c <;> simp
    exact ⟨hp0ne, strip_id_de p0 (limpio_extremos p0 hsolop hcabp) hcolap⟩

/-- C8 counterexample: for the cleaned content "A/B" (a slash without
surrounding blanks) both strategies derive the title "A/B", not the first
"/"-delimited segment "A" that the claim describes. -/
theorem c8_titulos_contraejemplo :
    resumenTabular ("A/B".data) = "A/B".data ∧
    resumenMovil ("A/B".data) = "A/B".data ∧
    resumenSegunSpec ("A/B".data) = "A".data ∧
    ¬ resumenTabular ("A/B".data) = resumenSegunSpec ("A/B".data) :=
  ⟨rfl, rfl, rfl, by decide⟩

/-- C8 (amended): both strategies clean text with the one shared
`limpiar_texto` function, whose output always satisfies `esLimpio`; on any
such cleaned non-empty content both derive the same title — the first
segment of the split on the three-character separator " / " (not on a bare
slash) — and the same description (the full cleaned content), hence identical
dedup keys regardless of the producing strategy. -/
theorem c8_titulos_coinciden :
    (∀ x : String, esLimpio (limpiar_texto x).data = true) ∧
    (∀ l : List Char, esLimpio l = true → l ≠ [] → resumenTabular l = resumenMovil l) ∧
    (∀ (l : List Char) (f : Fecha) (t1 t2 : Hora), esLimpio l = true → l ≠ [] →
      claveEvento ⟨f, t1, t2, (resumenTabular l).asString, l.asString⟩ =
        claveEvento ⟨f, t1, t2, (resumenMovil l).asString, l.asString⟩) := by
  have hmain : ∀ l : List Char, esLimpio l = true → l ≠ [] →
      resumenTabular l = resumenMovil l := by
    intro l hlim hne
    cases hdiv : dividirSep l with
    | nil => exact absurd hdiv (dividirSep_no_vacio l)
    | cons p0 ps =>
      obtain ⟨hp0ne, hp0strip⟩ := primera_parte l p0 ps hlim hne hdiv
      unfold resumenTabular resumenMovil
      rw [hdiv]
      simp only [List.map_cons, List.filter_cons, hp0strip]
      have : (p0 == ([] : List Char)) = false := by
        cases p0 with
        | nil => exact absurd rfl hp0ne
        | cons a r => rfl
      simp [this]
  refine ⟨esLimpio_limpiar, hmain, ?_⟩
  intro l f t1 t2 hlim hne
  rw [hmain l hlim hne]

theorem c8_titulos_coinciden_testigo :
    resumenTabular ("Calculo I / Sala 301".data) = resumenMovil ("Calculo I / Sala 301".data) ∧
    resumenTabular ("Calculo I / Sala 301".data) = "Calculo I".data :=
  ⟨c8_titulos_coinciden.2.1 ("Calculo I / Sala 301".data) (by decide) (by decide), rfl⟩

/-! ## C9: DTSTART/DTEND round-trip through the serialized event -/

def sinSaltoLinea (l : List Char) : Bool := l.all (fun c => !(c == '\n'))

theorem sinSalto_append (a b : List Char) :
    sinSaltoLinea (a ++ b) = (sinSaltoLinea a && sinSaltoLinea b) := by
  simp [sinSaltoLinea, List.all_append]

theorem digitChar_sin_salto (k : Nat) (hk : k ≤ 9) : (digitChar k == '\n') = false := by
  interval_cases k <;> decide

theorem fechaValida_cotas (a m d : Nat) (h : fechaValida a m d = true) :
    a ≤ 9999 ∧ m ≤ 12 ∧ d ≤ 31 := by
  simp only [fechaValida, Bool.and_eq_true, decide_eq_true_eq] at h
  obtain ⟨⟨⟨⟨⟨_, ha2⟩, _⟩, hm2⟩, _⟩, hd2⟩ := h
  have hd31 : diasDelMes a m ≤ 31 := by
    unfold diasDelMes
    split
    · split <;> omega
    · split <;> omega
  exact ⟨ha2, hm2, by omega⟩

theorem sinSalto_pad2 (n : Nat) (h : n ≤ 99) : sinSaltoLinea (pad2 n) = true := by
  simp [sinSaltoLinea, pad2, digitChar_sin_salto (n / 10) (by omega),
    digitChar_sin_salto (n % 10) (by omega)]

theorem sinSalto_pad4 (n : Nat) (h : n ≤ 9999) : sinSaltoLinea (pad4 n) = true := by
  simp [sinSaltoLinea, pad4, digitChar_sin_salto (n / 1000) (by omega),
    digitChar_sin_salto (n / 100 % 10) (by omega), digitChar_sin_salto (n / 10 % 10) (by omega),
    digitChar_sin_salto (n % 10) (by omega)]

theorem sinSalto_decReprAux (fuel : Nat) : ∀ n, sinSaltoLinea (decReprAux fuel n) = true := by
  induction fuel with
  | zero => intro n; rfl
  | succ f ih =>
    intro n
    unfold decReprAux
    by_cases hn : n < 10
    · simp [sinSaltoLinea, hn, digitChar_sin_salto n (by omega)]
    · rw [if_neg hn]
      rw [sinSalto_append]
      have h1 := ih (n / 10)
      have h2 : sinSaltoLinea [digitChar (n % 10)] = true := by
        simp [sinSaltoLinea, digitChar_sin_salto (n % 10) (by omega)]
      rw [h1, h2]
      rfl

theorem sinSalto_decRepr (n : Nat) : sinSaltoLinea (decRepr n) = true :=
  sinSalto_decReprAux (n + 1) n

theorem sinSalto_reemplazarNl (l : List Char) : sinSaltoLinea (reemplazarNl l) = true := by
  induction l with
  | nil => rfl
  | cons c resto ih =>
    unfold reemplazarNl
    by_cases hc : (c == '\n') = true
    · rw [if_pos hc]
      simp [sinSaltoLinea] at ih ⊢
      exact ih
    · have hcf : (c == '\n') = false := by revert hc; cases c == '\n' <;> simp
      rw [if_neg (by rw [hcf]; simp)]
      simp [sinSaltoLinea, hcf] at ih ⊢
      exact ih

theorem sinSalto_reemplazarNlEspacio (l : List Char) :
    sinSaltoLinea (reemplazarNlEspacio l) = true := by
  induction l with
  | nil => rfl
  | cons c resto ih =>
    unfold reemplazarNlEspacio
    by_cases hc : (c == '\n') = true
    · rw [if_pos hc]
      simp [sinSaltoLinea] at ih ⊢
      exact ih
    · have hcf : (c == '\n') = false := by revert hc; cases c == '\n' <;> simp
      rw [if_neg (by rw [hcf]; simp)]
      simp [sinSaltoLinea, hcf] at ih ⊢
      exact ih

theorem all_dropWhile (q p : Char → Bool) (l : List Char) (h : l.all q = true) :
    (l.dropWhile p).all q = true := by
  induction l with
  | nil => exact h
  | cons c resto ih =>
    rw [List.dropWhile_cons]
    simp only [List.all_cons, Bool.and_eq_true] at h
    by_cases hc : p c = true
    · rw [if_pos hc]
      exact ih h.2
    · rw [if_neg hc]
      simp only [List.all_cons, Bool.and_eq_true]
      exact h

theorem all_quitarDer (q : Char → Bool) (l : List Char) (h : l.all q = true) :
    (quitarDer l).all q = true := by
  obtain ⟨suf, hsuf⟩ := quitarDer_prefijo l
  rw [hsuf, List.all_append, Bool.and_eq_true] at h
  exact h.1

theorem sinSalto_pyStrip (l : List Char) (h : sinSaltoLinea l = true) :
    sinSaltoLinea (pyStrip l) = true :=
  all_quitarDer _ _ (all_dropWhile _ _ l h)

theorem sinSalto_uid (fecha : Fecha) (tIni : Hora) (contador : Nat)
    (hf : fechaValida fecha.anio fecha.mes fecha.dia = true) (ht : tIni.hora ≤ 23 ∧ tIni.minuto ≤ 59) :
    sinSaltoLinea (uidEvento fecha tIni contador) = true := by
  obtain ⟨ha, hm, hd⟩ := fechaValida_cotas _ _ _ hf
  unfold uidEvento fmtYmd fmtHM
  simp only [sinSalto_append, List.cons_append]
  have h1 : sinSaltoLinea ("inacap-".data) = true := by decide
  have h2 := sinSalto_pad4 fecha.anio ha
  have h3 := sinSalto_pad2 fecha.mes (by omega)
  have h4 := sinSalto_pad2 fecha.dia (by omega)
  have h5 := sinSalto_pad2 tIni.hora (by omega)
  have h6 := sinSalto_pad2 tIni.minuto (by omega)
  have h7 := sinSalto_decRepr contador
  have h8 : sinSaltoLinea ("@siga".data) = true := by decide
  simp only [sinSaltoLinea, List.all_append, List.all_cons] at h1 h2 h3 h4 h5 h6 h7 h8 ⊢
  simp [h1, h2, h3, h4, h5, h6, h7, h8]

theorem partirCRLF_base (resto : List Char) :
    partirCRLF ('\r' :: '\n' :: resto) = [] :: partirCRLF resto := by
  rw [partirCRLF]
  simp

theorem partirCRLF_linea (xs : List Char) : ∀ resto : List Char, sinSaltoLinea xs = true →
    partirCRLF (xs ++ '\r' :: '\n' :: resto) = xs :: partirCRLF resto := by
  induction xs with
  | nil =>
    intro resto _
    exact partirCRLF_base resto
  | cons c xs2 ih =>
    intro resto hxs
    simp only [sinSaltoLinea, List.all_cons, Bool.and_eq_true] at hxs
    have hxs2 : sinSaltoLinea xs2 = true := hxs.2
    cases xs2 with
    | nil =>
      show partirCRLF (c :: '\r' :: '\n' :: resto) = [c] :: partirCRLF resto
      rw [partirCRLF, if_neg (fun hand => absurd hand.2 (by decide)), partirCRLF_base]
    | cons x xs3 =>
      show partirCRLF (c :: x :: (xs3 ++ '\r' :: '\n' :: resto)) = _
      have hx : ¬ (c = '\r' ∧ x = '\n') := by
        intro hand
        simp only [sinSaltoLinea, List.all_cons, Bool.and_eq_true] at hxs2
        have hxh := hxs2.1
        rw [hand.2] at hxh
        simp at hxh
      have ihx : partirCRLF (x :: (xs3 ++ '\r' :: '\n' :: resto)) =
          (x :: xs3) :: partirCRLF resto := ih resto hxs2
      rw [partirCRLF, if_neg hx, ihx]

theorem sinSalto_cons (c : Char) (l : List Char) (hc : (c == '\n') = false)
    (hl : sinSaltoLinea l = true) : sinSaltoLinea (c :: l) = true := by
  simp only [sinSaltoLinea, List.all_cons, hc, Bool.not_false, Bool.true_and]
  exact hl

theorem sinSalto_app (a b : List Char) (ha : sinSaltoLinea a = true)
    (hb : sinSaltoLinea b = true) : sinSaltoLinea (a ++ b) = true := by
  rw [sinSalto_append, ha, hb]
  rfl

def horaEnRango (t : Hora) : Prop := t.hora ≤ 23 ∧ t.minuto ≤ 59 ∧ t.segundo ≤ 59

theorem sinSalto_fmtYmd (f : Fecha) (hf : fechaValida f.anio f.mes f.dia = true) :
    sinSaltoLinea (fmtYmd f) = true := by
  obtain ⟨ha, hm, hd⟩ := fechaValida_cotas _ _ _ hf
  exact sinSalto_app _ _
    (sinSalto_app _ _ (sinSalto_pad4 f.anio ha) (sinSalto_pad2 f.mes (by omega)))
    (sinSalto_pad2 f.dia (by omega))

theorem sinSalto_fmtHMS (t : Hora) (ht : horaEnRango t) : sinSaltoLinea (fmtHMS t) = true := by
  obtain ⟨h1, h2, h3⟩ := ht
  exact sinSalto_app _ _
    (sinSalto_app _ _ (sinSalto_pad2 t.hora (by omega)) (sinSalto_pad2 t.minuto (by omega)))
    (sinSalto_pad2 t.segundo (by omega))

theorem construir_evento_lineas (contador : Nat) (resumen : String) (fecha : Fecha)
    (tIni tFin : Hora) (descripcion dtstamp : String)
    (hf : fechaValida fecha.anio fecha.mes fecha.dia = true)
    (h1 : horaEnRango tIni) (h2 : horaEnRango tFin)
    (hdt : sinSaltoLinea dtstamp.data = true) :
    partirCRLF (construir_evento contador resumen fecha tIni tFin descripcion dtstamp).data =
      ["BEGIN:VEVENT".data,
       "UID:".data ++ uidEvento fecha tIni contador,
       "DTSTAMP:".data ++ dtstamp.data,
       "DTSTART;".data ++ ("TZID=".data ++ TZID.data ++ ':' :: (fmtYmd fecha ++ 'T' :: fmtHMS tIni)),
       "DTEND;".data ++ ("TZID=".data ++ TZID.data ++ ':' :: (fmtYmd fecha ++ 'T' :: fmtHMS tFin)),
       "SUMMARY:".data ++ pyStrip (reemplazarNlEspacio resumen.data),
       "DESCRIPTION:".data ++ reemplazarNl descripcion.data,
       "END:VEVENT".data] := by
  have hdatos : ∀ l : List Char, (l.asString).data = l := fun l => rfl
  have hforma : (construir_evento contador resumen fecha tIni tFin descripcion dtstamp).data =
      "BEGIN:VEVENT".data ++ '\r' :: '\n' ::
      (("UID:".data ++ uidEvento fecha tIni contador) ++ '\r' :: '\n' ::
      (("DTSTAMP:".data ++ dtstamp.data) ++ '\r' :: '\n' ::
      (("DTSTART;".data ++ ("TZID=".data ++ TZID.data ++ ':' ::
          (fmtYmd fecha ++ 'T' :: fmtHMS tIni))) ++ '\r' :: '\n' ::
      (("DTEND;".data ++ ("TZID=".data ++ TZID.data ++ ':' ::
          (fmtYmd fecha ++ 'T' :: fmtHMS tFin))) ++ '\r' :: '\n' ::
      (("SUMMARY:".data ++ pyStrip (reemplazarNlEspacio resumen.data)) ++ '\r' :: '\n' ::
      (("DESCRIPTION:".data ++ reemplazarNl descripcion.data) ++ '\r' :: '\n' ::
      "END:VEVENT".data)))))) := by
    simp [construir_evento, crlf, hdatos, List.append_assoc, uidEvento]
  have hL2 : sinSaltoLinea ("UID:".data ++ uidEvento fecha tIni contador) = true :=
    sinSalto_app _ _ (by decide) (sinSalto_uid fecha tIni contador hf ⟨h1.1, h1.2.1⟩)
  have hL3 : sinSaltoLinea ("DTSTAMP:".data ++ dtstamp.data) = true :=
    sinSalto_app _ _ (by decide) hdt
  have hL4 : sinSaltoLinea ("DTSTART;".data ++ ("TZID=".data ++ TZID.data ++ ':' ::
      (fmtYmd fecha ++ 'T' :: fmtHMS tIni))) = true :=
    sinSalto_app _ _ (by decide) (sinSalto_app _ _ (by decide)
      (sinSalto_cons ':' _ (by decide) (sinSalto_app _ _ (sinSalto_fmtYmd fecha hf)
        (sinSalto_cons 'T' _ (by decide) (sinSalto_fmtHMS tIni h1)))))
  have hL5 : sinSaltoLinea ("DTEND;".data ++ ("TZID=".data ++ TZID.data ++ ':' ::
      (fmtYmd fecha ++ 'T' :: fmtHMS tFin))) = true :=
    sinSalto_app _ _ (by decide) (sinSalto_app _ _ (by decide)
      (sinSalto_cons ':' _ (by decide) (sinSalto_app _ _ (sinSalto_fmtYmd fecha hf)
        (sinSalto_cons 'T' _ (by decide) (sinSalto_fmtHMS tFin h2)))))
  have hL6 : sinSaltoLinea ("SUMMARY:".data ++ pyStrip (reemplazarNlEspacio resumen.data)) = true :=
    sinSalto_app _ _ (by decide) (sinSalto_pyStrip _ (sinSalto_reemplazarNlEspacio _))
  have hL7 : sinSaltoLinea ("DESCRIPTION:".data ++ reemplazarNl descripcion.data) = true :=
    sinSalto_app _ _ (by decide) (sinSalto_reemplazarNl _)
  rw [hforma, partirCRLF_linea _ _ (by decide), partirCRLF_linea _ _ hL2,
    partirCRLF_linea _ _ hL3, partirCRLF_linea _ _ hL4, partirCRLF_linea _ _ hL5,
    partirCRLF_linea _ _ hL6, partirCRLF_linea _ _ hL7]
  rfl

theorem valDigitos_cuatro (n : Nat) (h : n ≤ 9999) :
    valDigitos [digitChar (n / 1000), digitChar (n / 100 % 10),
      digitChar (n / 10 % 10), digitChar (n % 10)] = n := by
  show 10 * (10 * (10 * (10 * 0 + valDigito (digitChar (n / 1000))) +
    valDigito (digitChar (n / 100 % 10))) + valDigito (digitChar (n / 10 % 10))) +
    valDigito (digitChar (n % 10)) = n
  rw [valDigito_digitChar _ (by omega), valDigito_digitChar _ (by omega),
    valDigito_digitChar _ (by omega), valDigito_digitChar _ (by omega)]
  omega

theorem valDigitos_dosExp (n : Nat) (h : n ≤ 99) :
    valDigitos [digitChar (n / 10), digitChar (n % 10)] = n := by
  show 10 * (10 * 0 + valDigito (digitChar (n / 10))) + valDigito (digitChar (n % 10)) = n
  rw [valDigito_digitChar _ (by omega), valDigito_digitChar _ (by omega)]
  omega

theorem parseValorDt_forma (f : Fecha) (t : Hora)
    (hf : fechaValida f.anio f.mes f.dia = true) (ht : horaEnRango t) :
    parseValorDt ("TZID=".data ++ TZID.data ++ ':' :: (fmtYmd f ++ 'T' :: fmtHMS t)) =
      some (f, t) := by
  obtain ⟨ha, hm, hd⟩ := fechaValida_cotas _ _ _ hf
  obtain ⟨ht1, ht2, ht3⟩ := ht
  have hqp : quitarPrefijo ("TZID=America/Santiago:".data)
      ("TZID=".data ++ TZID.data ++ ':' :: (fmtYmd f ++ 'T' :: fmtHMS t)) =
      some (fmtYmd f ++ 'T' :: fmtHMS t) := rfl
  unfold parseValorDt
  rw [hqp]
  have hexp : fmtYmd f ++ 'T' :: fmtHMS t =
      [digitChar (f.anio / 1000), digitChar (f.anio / 100 % 10), digitChar (f.anio / 10 % 10),
       digitChar (f.anio % 10), digitChar (f.mes / 10), digitChar (f.mes % 10),
       digitChar (f.dia / 10), digitChar (f.dia % 10), 'T',
       digitChar (t.hora / 10), digitChar (t.hora % 10), digitChar (t.minuto / 10),
       digitChar (t.minuto % 10), digitChar (t.segundo / 10), digitChar (t.segundo % 10)] := by
    simp [fmtYmd, fmtHMS, pad4, pad2]
  rw [hexp]
  have hd1 := digitChar_isDigit (f.anio / 1000) (by omega)
  have hd2 := digitChar_isDigit (f.anio / 100 % 10) (by omega)
  have hd3 := digitChar_isDigit (f.anio / 10 % 10) (by omega)
  have hd4 := digitChar_isDigit (f.anio % 10) (by omega)
  have hd5 := digitChar_isDigit (f.mes / 10) (by omega)
  have hd6 := digitChar_isDigit (f.mes % 10) (by omega)
  have hd7 := digitChar_isDigit (f.dia / 10) (by omega)
  have hd8 := digitChar_isDigit (f.dia % 10) (by omega)
  have hd9 := digitChar_isDigit (t.hora / 10) (by omega)
  have hd10 := digitChar_isDigit (t.hora % 10) (by omega)
  have hd11 := digitChar_isDigit (t.minuto / 10) (by omega)
  have hd12 := digitChar_isDigit (t.minuto % 10) (by omega)
  have hd13 := digitChar_isDigit (t.segundo / 10) (by omega)
  have hd14 := digitChar_isDigit (t.segundo % 10) (by omega)
  simp only [List.all_cons, List.all_nil, hd1, hd2, hd3, hd4, hd5, hd6, hd7, hd8, hd9,
    hd10, hd11, hd12, hd13, hd14, Bool.and_true, Bool.true_and, if_true]
  rw [valDigitos_cuatro f.anio ha, valDigitos_dosExp f.mes (by omega),
    valDigitos_dosExp f.dia (by omega), valDigitos_dosExp t.hora (by omega),
    valDigitos_dosExp t.minuto (by omega), valDigitos_dosExp t.segundo (by omega)]

/-- C9: serializing an event writes DTSTART and DTEND with
`TZID=America/Santiago` and the local wall-clock `YYYYMMDDTHHMMSS` exactly as
read from the source (no UTC conversion is applied anywhere in
`construir_evento`), so re-parsing the DTSTART/DTEND fields of the serialized
VEVENT recovers the original date, start and end values exactly. -/
theorem c9_ida_y_vuelta (contador : Nat) (resumen : String) (fecha : Fecha)
    (tIni tFin : Hora) (descripcion dtstamp : String)
    (hf : fechaValida fecha.anio fecha.mes fecha.dia = true)
    (h1 : horaEnRango tIni) (h2 : horaEnRango tFin)
    (hdt : sinSaltoLinea dtstamp.data = true) :
    reparseDtstart (construir_evento contador resumen fecha tIni tFin descripcion dtstamp) =
      some (fecha, tIni) ∧
    reparseDtend (construir_evento contador resumen fecha tIni tFin descripcion dtstamp) =
      some (fecha, tFin) := by
  have hlineas := construir_evento_lineas contador resumen fecha tIni tFin descripcion dtstamp
    hf h1 h2 hdt
  constructor
  · unfold reparseDtstart
    rw [hlineas]
    have hbusca : lineaConPrefijo ("DTSTART;".data)
        ["BEGIN:VEVENT".data,
         "UID:".data ++ uidEvento fecha tIni contador,
         "DTSTAMP:".data ++ dtstamp.data,
         "DTSTART;".data ++ ("TZID=".data ++ TZID.data ++ ':' ::
           (fmtYmd fecha ++ 'T' :: fmtHMS tIni)),
         "DTEND;".data ++ ("TZID=".data ++ TZID.data ++ ':' ::
           (fmtYmd fecha ++ 'T' :: fmtHMS tFin)),
         "SUMMARY:".data ++ pyStrip (reemplazarNlEspacio resumen.data),
         "DESCRIPTION:".data ++ reemplazarNl descripcion.data,
         "END:VEVENT".data] =
        some ("TZID=".data ++ TZID.data ++ ':' :: (fmtYmd fecha ++ 'T' :: fmtHMS tIni)) := rfl
    rw [hbusca]
    exact parseValorDt_forma fecha tIni hf h1
  · unfold reparseDtend
    rw [hlineas]
    have hbusca : lineaConPrefijo ("DTEND;".data)
        ["BEGIN:VEVENT".data,
         "UID:".data ++ uidEvento fecha tIni contador,
         "DTSTAMP:".data ++ dtstamp.data,
         "DTSTART;".data ++ ("TZID=".data ++ TZID.data ++ ':' ::
           (fmtYmd fecha ++ 'T' :: fmtHMS tIni)),
         "DTEND;".data ++ ("TZID=".data ++ TZID.data ++ ':' ::
           (fmtYmd fecha ++ 'T' :: fmtHMS tFin)),
         "SUMMARY:".data ++ pyStrip (reemplazarNlEspacio resumen.data),
         "DESCRIPTION:".data ++ reemplazarNl descripcion.data,
         "END:VEVENT".data] =
        some ("TZID=".data ++ TZID.data ++ ':' :: (fmtYmd fecha ++ 'T' :: fmtHMS tFin)) := rfl
    rw [hbusca]
    exact parseValorDt_forma fecha tFin hf h2

theorem c9_ida_y_vuelta_testigo :
    reparseDtstart (construir_evento 1 "Calculo I" ⟨2025, 8, 4⟩ ⟨8, 0, 0⟩ ⟨9, 30, 0⟩
      "Calculo I / Sala 301" "20250804T120000Z") = some (⟨2025, 8, 4⟩, ⟨8, 0, 0⟩) ∧
    reparseDtend (construir_evento 1 "Calculo I" ⟨2025, 8, 4⟩ ⟨8, 0, 0⟩ ⟨9, 30, 0⟩
      "Calculo I / Sala 301" "20250804T120000Z") = some (⟨2025, 8, 4⟩, ⟨9, 30, 0⟩) :=
  c9_ida_y_vuelta 1 "Calculo I" ⟨2025, 8, 4⟩ ⟨8, 0, 0⟩ ⟨9, 30, 0⟩
    "Calculo I / Sala 301" "20250804T120000Z" (by decide)
    ⟨by decide, by decide, by decide⟩ ⟨by decide, by decide, by decide⟩ (by decide)

/-! ## C3: the language of the range regex

`ContienePatron l` is the standard language semantics of the source pattern
`(\d{1,2})\s*-\s*(\d{1,2})\s+([a-zñ.]+)\.?\s+(\d{4})` under `re.search`: the
text contains, at some position, two 1-2 digit groups around a dash with
optional spacing, a month-class word, an optional period and a 4-digit year.
The month word of an occurrence is split here into a body `m` and the optional
period `pt`; since `.` itself belongs to the month class, any dotted month
text admits such a split. -/

def TodosEspacios (l : List Char) : Bool := l.all pyIsSpace

def GrupoDias (g : List Char) : Bool :=
  decide (g ≠ []) && decide (g.length ≤ 2) && g.all (fun c => c.isDigit)

def GrupoAnio (y : List Char) : Bool := decide (y.length = 4) && y.all (fun c => c.isDigit)

def armarPatron (pre g1 s1 s2 g2 s3 m pt s4 y suf : List Char) : List Char :=
  pre ++ (g1 ++ (s1 ++ ('-' :: (s2 ++ (g2 ++ (s3 ++ (m ++ (pt ++ (s4 ++ (y ++ suf))))))))))

def CondPatron (g1 s1 s2 g2 s3 m pt s4 y : List Char) : Prop :=
  GrupoDias g1 = true ∧ TodosEspacios s1 = true ∧ TodosEspacios s2 = true ∧
  GrupoDias g2 = true ∧ s3 ≠ [] ∧ TodosEspacios s3 = true ∧
  m ≠ [] ∧ m.all esCharMes = true ∧ (pt = [] ∨ pt = ['.']) ∧
  s4 ≠ [] ∧ TodosEspacios s4 = true ∧ GrupoAnio y = true

def ContienePatron (l : List Char) : Prop :=
  ∃ pre g1 s1 s2 g2 s3 m pt s4 y suf,
    l = armarPatron pre g1 s1 s2 g2 s3 m pt s4 y suf ∧ CondPatron g1 s1 s2 g2 s3 m pt s4 y

/-- Modelled from the spec: a label "matches the grammar" when it contains an
occurrence of `D{1,2} - D{1,2} <month-abbrev> <year>` (flexible whitespace)
whose month word is an abbreviation of the fixed twelve-entry table followed by
an optional period. -/
def ContieneBuena (l : List Char) : Prop :=
  ∃ pre g1 s1 s2 g2 s3 ab pt s4 y suf,
    l = armarPatron pre g1 s1 s2 g2 s3 ab pt s4 y suf ∧
    GrupoDias g1 = true ∧ TodosEspacios s1 = true ∧ TodosEspacios s2 = true ∧
    GrupoDias g2 = true ∧ s3 ≠ [] ∧ TodosEspacios s3 = true ∧
    (mesesLookup ab).isSome = true ∧ (pt = [] ∨ pt = ['.']) ∧
    s4 ≠ [] ∧ TodosEspacios s4 = true ∧ GrupoAnio y = true

theorem espacio_concreto (c : Char) (h : pyIsSpace c = true) :
    c = ' ' ∨ c = '\t' ∨ c = '\n' ∨ c = '\r' ∨ c = '\x0b' ∨ c = '\x0c' ∨ c = '\xa0' := by
  unfold pyIsSpace at h
  simp only [Bool.or_eq_true, beq_iff_eq] at h
  tauto

theorem espacio_no_digito (c : Char) (h : pyIsSpace c = true) : c.isDigit = false := by
  rcases espacio_concreto c h with h1 | h1 | h1 | h1 | h1 | h1 | h1 <;> subst h1 <;> decide

theorem espacio_no_mes (c : Char) (h : pyIsSpace c = true) : esCharMes c = false := by
  rcases espacio_concreto c h with h1 | h1 | h1 | h1 | h1 | h1 | h1 <;> subst h1 <;> decide

theorem espacio_no_punto (c : Char) (h : pyIsSpace c = true) : ¬ c = '.' := by
  rcases espacio_concreto c h with h1 | h1 | h1 | h1 | h1 | h1 | h1 <;> subst h1 <;> decide

theorem digit_no_espacio (c : Char) (h : c.isDigit = true) : pyIsSpace c = false := by
  cases hd : pyIsSpace c
  · rfl
  · rcases espacio_concreto c hd with h1 | h1 | h1 | h1 | h1 | h1 | h1 <;> subst h1 <;>
      exact absurd h (by decide)

theorem mes_no_espacio (c : Char) (h : esCharMes c = true) : pyIsSpace c = false := by
  cases hd : pyIsSpace c
  · rfl
  · rcases espacio_concreto c hd with h1 | h1 | h1 | h1 | h1 | h1 | h1 <;> subst h1 <;>
      exact absurd h (by decide)

theorem dropWhile_todos (p : Char → Bool) (xs l : List Char) (h : xs.all p = true) :
    (xs ++ l).dropWhile p = l.dropWhile p := by
  induction xs with
  | nil => rfl
  | cons c cs ih =>
    simp only [List.all_cons, Bool.and_eq_true] at h
    simp only [List.cons_append, List.dropWhile_cons, h.1, if_true]
    exact ih h.2

theorem dropWhile_alto (p : Char → Bool) (c : Char) (l : List Char) (h : p c = false) :
    (c :: l).dropWhile p = c :: l := by
  simp [List.dropWhile_cons, h]

theorem takeWhile_todos (p : Char → Bool) (xs l : List Char) (h : xs.all p = true) :
    (xs ++ l).takeWhile p = xs ++ l.takeWhile p := by
  induction xs with
  | nil => rfl
  | cons c cs ih =>
    simp only [List.all_cons, Bool.and_eq_true] at h
    simp [List.takeWhile_cons, h.1, ih h.2]

theorem takeWhile_alto (p : Char → Bool) (c : Char) (l : List Char) (h : p c = false) :
    (c :: l).takeWhile p = [] := by
  simp [List.takeWhile_cons, h]

theorem takeWhile_all (p : Char → Bool) (l : List Char) : (l.takeWhile p).all p = true := by
  induction l with
  | nil => rfl
  | cons c cs ih =>
    cases hc : p c
    · simp [List.takeWhile_cons, hc]
    · simp [List.takeWhile_cons, hc, ih]

theorem all_take (p : Char → Bool) (k : Nat) (l : List Char) (h : l.all p = true) :
    (l.take k).all p = true := by
  induction l generalizing k with
  | nil => simp
  | cons c t ih =>
    cases k with
    | zero => rfl
    | succ k' =>
      simp only [List.all_cons, Bool.and_eq_true] at h
      simp [List.take_succ_cons, List.all_cons, h.1, ih k' h.2]

theorem take_no_vacia (k : Nat) (l : List Char) (hk : 1 ≤ k) (hl : l ≠ []) :
    l.take k ≠ [] := by
  cases l with
  | nil => exact absurd rfl hl
  | cons c t =>
    cases k with
    | zero => omega
    | succ k' => simp [List.take_succ_cons]

theorem tomarDigitos12_en (g resto : List Char) (hg : GrupoDias g = true)
    (hr : ∀ c, resto.head? = some c → c.isDigit = false) :
    tomarDigitos12 (g ++ resto) = some (valDigitos g, resto) := by
  unfold GrupoDias at hg
  simp only [Bool.and_eq_true, decide_eq_true_eq] at hg
  obtain ⟨⟨hne, hlen⟩, hdig⟩ := hg
  cases g with
  | nil => exact absurd rfl hne
  | cons a g' =>
    cases g' with
    | nil =>
      simp only [List.all_cons, List.all_nil, Bool.and_true] at hdig
      cases resto with
      | nil => simp [tomarDigitos12, hdig, valDigitos]
      | cons b r =>
        have hb : b.isDigit = false := hr b rfl
        simp [tomarDigitos12, hdig, hb, valDigitos]
    | cons b g'' =>
      cases g'' with
      | nil =>
        simp only [List.all_cons, List.all_nil, Bool.and_true, Bool.and_eq_true] at hdig
        simp [tomarDigitos12, hdig.1, hdig.2, valDigitos]
      | cons c g''' =>
        simp only [List.length_cons] at hlen
        omega

theorem tomarAnio4_en (y resto : List Char) (hy : GrupoAnio y = true) :
    tomarAnio4 (y ++ resto) = some (valDigitos y) := by
  unfold GrupoAnio at hy
  simp only [Bool.and_eq_true, decide_eq_true_eq] at hy
  obtain ⟨hlen, hdig⟩ := hy
  cases y with
  | nil => simp at hlen
  | cons a t1 =>
    cases t1 with
    | nil => simp at hlen
    | cons b t2 =>
      cases t2 with
      | nil => simp at hlen
      | cons c t3 =>
        cases t3 with
        | nil => simp at hlen
        | cons d t4 =>
          cases t4 with
          | cons e t5 =>
            simp only [List.length_cons] at hlen
            omega
          | nil =>
            simp only [List.all_cons, List.all_nil, Bool.and_true, Bool.and_eq_true] at hdig
            obtain ⟨h1, h2, h3, h4⟩ := hdig
            simp [tomarAnio4, h1, h2, h3, h4]

theorem colaMes_sin_punto (s4 y resto : List Char) (hs4 : s4 ≠ [])
    (hesp : TodosEspacios s4 = true) (hy : GrupoAnio y = true) :
    colaMes (s4 ++ (y ++ resto)) = some (valDigitos y) := by
  cases s4 with
  | nil => exact absurd rfl hs4
  | cons c s4' =>
    simp only [TodosEspacios, List.all_cons, Bool.and_eq_true] at hesp
    obtain ⟨hc, hs4'⟩ := hesp
    have hdw : (c :: (s4' ++ (y ++ resto))).dropWhile pyIsSpace = y ++ resto := by
      have h1 : ((c :: s4') ++ (y ++ resto)).dropWhile pyIsSpace =
          (y ++ resto).dropWhile pyIsSpace :=
        dropWhile_todos pyIsSpace (c :: s4') (y ++ resto)
          (by simp [List.all_cons, hc, hs4'])
      rw [List.cons_append] at h1
      rw [h1]
      cases y with
      | nil => exact absurd hy (by decide)
      | cons a y' =>
        have ha : a.isDigit = true := by
          unfold GrupoAnio at hy
          simp only [Bool.and_eq_true] at hy
          have h2 := hy.2
          simp only [List.all_cons, Bool.and_eq_true] at h2
          exact h2.1
        rw [List.cons_append]
        exact dropWhile_alto pyIsSpace a (y' ++ resto) (digit_no_espacio a ha)
    have hcd : ¬ c = '.' := espacio_no_punto c hc
    simp only [List.cons_append, colaMes, hcd, if_false, hc, if_true, hdw]
    exact tomarAnio4_en y resto hy

theorem buscarMes_exito (run despues : List Char) (a : Nat) (hne : run ≠ [])
    (hcola : colaMes despues = some a) :
    buscarMes run despues run.length = some (run, a) := by
  cases run with
  | nil => exact absurd rfl hne
  | cons c r =>
    show buscarMes (c :: r) despues (r.length + 1) = some (c :: r, a)
    have hdrop : (c :: r).drop (r.length + 1) = [] := by
      have hl : (c :: r).length = r.length + 1 := rfl
      rw [← hl, List.drop_length]
    have htake : (c :: r).take (r.length + 1) = c :: r := by
      have hl : (c :: r).length = r.length + 1 := rfl
      rw [← hl, List.take_length]
    simp only [buscarMes, hdrop, List.nil_append, hcola, htake]

theorem coincidirRangoEn_completo (g1 s1 s2 g2 s3 m pt s4 y suf : List Char)
    (hc : CondPatron g1 s1 s2 g2 s3 m pt s4 y) :
    coincidirRangoEn
      (g1 ++ (s1 ++ ('-' :: (s2 ++ (g2 ++ (s3 ++ (m ++ (pt ++ (s4 ++ (y ++ suf)))))))))) =
    some (valDigitos g1, valDigitos g2, m ++ pt, valDigitos y) := by
  obtain ⟨hg1, hs1, hs2, hg2, hs3ne, hs3, hmne, hm, hpt, hs4ne, hs4, hy⟩ := hc
  obtain ⟨a2, g2', rfl⟩ : ∃ a t, g2 = a :: t := by
    cases g2 with
    | nil => exact absurd hg2 (by decide)
    | cons a t => exact ⟨a, t, rfl⟩
  obtain ⟨a3, s3', rfl⟩ : ∃ a t, s3 = a :: t := by
    cases s3 with
    | nil => exact absurd rfl hs3ne
    | cons a t => exact ⟨a, t, rfl⟩
  obtain ⟨am, m', rfl⟩ : ∃ a t, m = a :: t := by
    cases m with
    | nil => exact absurd rfl hmne
    | cons a t => exact ⟨a, t, rfl⟩
  obtain ⟨a4, s4', rfl⟩ : ∃ a t, s4 = a :: t := by
    cases s4 with
    | nil => exact absurd rfl hs4ne
    | cons a t => exact ⟨a, t, rfl⟩
  obtain ⟨ay, y', rfl⟩ : ∃ a t, y = a :: t := by
    cases y with
    | nil => exact absurd hy (by decide)
    | cons a t => exact ⟨a, t, rfl⟩
  have ha2 : a2.isDigit = true := by
    have h := hg2
    unfold GrupoDias at h
    simp only [Bool.and_eq_true, decide_eq_true_eq, List.all_cons] at h
    exact h.2.1
  have ha3 : pyIsSpace a3 = true := by
    have h := hs3
    simp only [TodosEspacios, List.all_cons, Bool.and_eq_true] at h
    exact h.1
  have ham : esCharMes am = true := by
    have h := hm
    simp only [List.all_cons, Bool.and_eq_true] at h
    exact h.1
  have ha4 : pyIsSpace a4 = true := by
    have h := hs4
    simp only [TodosEspacios, List.all_cons, Bool.and_eq_true] at h
    exact h.1
  have hdot : esCharMes '.' = true := by decide
  simp only [List.cons_append]
  set RY : List Char := ay :: (y' ++ suf) with hRY
  set R7 : List Char := a4 :: (s4' ++ RY) with hR7
  set R6 : List Char := am :: (m' ++ (pt ++ R7)) with hR6
  set R4 : List Char := a2 :: (g2' ++ (a3 :: (s3' ++ R6))) with hR4
  set R3 : List Char := s2 ++ R4 with hR3
  set R1 : List Char := s1 ++ ('-' :: R3) with hR1
  have h1 : tomarDigitos12 (g1 ++ R1) = some (valDigitos g1, R1) := by
    apply tomarDigitos12_en g1 R1 hg1
    intro c hc'
    rw [hR1] at hc'
    cases s1 with
    | nil =>
      rw [List.nil_append, List.head?_cons] at hc'
      rw [← Option.some.inj hc']
      decide
    | cons b s1' =>
      rw [List.cons_append, List.head?_cons] at hc'
      rw [← Option.some.inj hc']
      have h := hs1
      simp only [TodosEspacios, List.all_cons, Bool.and_eq_true] at h
      exact espacio_no_digito b h.1
  have h2 : R1.dropWhile pyIsSpace = '-' :: R3 := by
    rw [hR1, dropWhile_todos pyIsSpace s1 _ hs1]
    exact dropWhile_alto pyIsSpace '-' R3 (by decide)
  have h3 : R3.dropWhile pyIsSpace = R4 := by
    rw [hR3, dropWhile_todos pyIsSpace s2 _ hs2, hR4]
    exact dropWhile_alto pyIsSpace a2 _ (digit_no_espacio a2 ha2)
  have h4 : tomarDigitos12 R4 = some (valDigitos (a2 :: g2'), a3 :: (s3' ++ R6)) := by
    rw [hR4]
    have hr := tomarDigitos12_en (a2 :: g2') (a3 :: (s3' ++ R6)) hg2 (by
      intro c hc'
      rw [List.head?_cons] at hc'
      rw [← Option.some.inj hc']
      exact espacio_no_digito a3 ha3)
    rw [List.cons_append] at hr
    exact hr
  have h6 : (a3 :: (s3' ++ R6)).dropWhile pyIsSpace = R6 := by
    have hw := dropWhile_todos pyIsSpace (a3 :: s3') R6 hs3
    rw [List.cons_append] at hw
    rw [hw, hR6]
    exact dropWhile_alto pyIsSpace am _ (mes_no_espacio am ham)
  have h7 : R6.takeWhile esCharMes = am :: (m' ++ pt) := by
    rw [hR6]
    have hw := takeWhile_todos esCharMes (am :: m') (pt ++ R7) hm
    rw [List.cons_append] at hw
    rw [hw]
    rcases hpt with rfl | rfl
    · rw [List.nil_append, hR7, takeWhile_alto esCharMes a4 _ (espacio_no_mes a4 ha4)]
      simp
    · rw [hR7]
      simp [List.takeWhile_cons, hdot,
        takeWhile_alto esCharMes a4 _ (espacio_no_mes a4 ha4)]
  have h8 : R6.dropWhile esCharMes = R7 := by
    rw [hR6]
    have hw := dropWhile_todos esCharMes (am :: m') (pt ++ R7) hm
    rw [List.cons_append] at hw
    rw [hw]
    rcases hpt with rfl | rfl
    · rw [List.nil_append, hR7]
      exact dropWhile_alto esCharMes a4 _ (espacio_no_mes a4 ha4)
    · rw [hR7]
      simp [List.dropWhile_cons, hdot,
        dropWhile_alto esCharMes a4 _ (espacio_no_mes a4 ha4)]
  have h9 : buscarMes (am :: (m' ++ pt)) R7 (m'.length + pt.length + 1)
      = some (am :: (m' ++ pt), valDigitos (ay :: y')) := by
    have hcola : colaMes R7 = some (valDigitos (ay :: y')) := by
      have hcc := colaMes_sin_punto (a4 :: s4') (ay :: y') suf (by simp) hs4 hy
      rw [List.cons_append, List.cons_append] at hcc
      rw [hR7, hRY]
      exact hcc
    have hb := buscarMes_exito (am :: (m' ++ pt)) R7 (valDigitos (ay :: y')) (by simp) hcola
    rw [show (am :: (m' ++ pt)).length = m'.length + pt.length + 1 from by simp] at hb
    exact hb
  simp [coincidirRangoEn, h1, h2, h3, h4, ha3, h6, h7, h8, h9]

theorem buscarRango_de_sufijo (pre rest : List Char) (r : Nat × Nat × List Char × Nat)
    (hco : coincidirRangoEn rest = some r) :
    ∃ q, buscarRango (pre ++ rest) = some q := by
  induction pre with
  | nil =>
    cases rest with
    | nil =>
      rw [show coincidirRangoEn [] = none from rfl] at hco
      exact absurd hco (by simp)
    | cons c t => exact ⟨r, by simp only [List.nil_append, buscarRango, List.append_eq, hco]⟩
  | cons p pre' ih =>
    obtain ⟨q, hq⟩ := ih
    cases hc : coincidirRangoEn (p :: (pre' ++ rest)) with
    | some r2 => exact ⟨r2, by simp only [List.cons_append, buscarRango, List.append_eq, hc]⟩
    | none =>
      refine ⟨q, ?_⟩
      simp only [List.cons_append, buscarRango, List.append_eq, hc]
      exact hq

theorem tomarDigitos12_inv (l : List Char) (d : Nat) (r : List Char)
    (h : tomarDigitos12 l = some (d, r)) : ∃ g, l = g ++ r ∧ GrupoDias g = true := by
  cases l with
  | nil => simp [tomarDigitos12] at h
  | cons a l' =>
    cases l' with
    | nil =>
      by_cases ha : a.isDigit = true
      · simp only [tomarDigitos12, ha, if_true, Option.some.injEq, Prod.mk.injEq] at h
        refine ⟨[a], ?_, ?_⟩
        · rw [← h.2, List.append_nil]
        · simp [GrupoDias, ha]
      · simp [tomarDigitos12, ha] at h
    | cons b t =>
      by_cases ha : a.isDigit = true
      · by_cases hb : b.isDigit = true
        · simp only [tomarDigitos12, ha, hb, if_true, Option.some.injEq, Prod.mk.injEq] at h
          refine ⟨[a, b], ?_, ?_⟩
          · rw [← h.2]
            rfl
          · simp [GrupoDias, ha, hb]
        · simp [tomarDigitos12, ha, hb] at h
          refine ⟨[a], ?_, ?_⟩
          · rw [← h.2]
            rfl
          · simp [GrupoDias, ha]
      · simp [tomarDigitos12, ha] at h

theorem tomarAnio4_inv (l : List Char) (a : Nat) (h : tomarAnio4 l = some a) :
    ∃ y r, l = y ++ r ∧ GrupoAnio y = true := by
  cases l with
  | nil => simp [tomarAnio4] at h
  | cons c1 t1 =>
    cases t1 with
    | nil => simp [tomarAnio4] at h
    | cons c2 t2 =>
      cases t2 with
      | nil => simp [tomarAnio4] at h
      | cons c3 t3 =>
        cases t3 with
        | nil => simp [tomarAnio4] at h
        | cons c4 t4 =>
          by_cases h4 : (c1.isDigit && c2.isDigit && c3.isDigit && c4.isDigit) = true
          · have h4' := h4
            simp only [Bool.and_eq_true] at h4'
            obtain ⟨⟨⟨hd1, hd2⟩, hd3⟩, hd4⟩ := h4'
            refine ⟨[c1, c2, c3, c4], t4, rfl, ?_⟩
            simp [GrupoAnio, hd1, hd2, hd3, hd4]
          · simp [tomarAnio4, h4] at h

theorem colaMes_inv (resto : List Char) (a : Nat) (h : colaMes resto = some a) :
    ∃ pt s4 y r, resto = pt ++ (s4 ++ (y ++ r)) ∧ (pt = [] ∨ pt = ['.']) ∧
      s4 ≠ [] ∧ TodosEspacios s4 = true ∧ GrupoAnio y = true := by
  cases resto with
  | nil => simp [colaMes] at h
  | cons c rr =>
    by_cases hc : c = '.'
    · subst hc
      cases rr with
      | nil => simp [colaMes] at h
      | cons c2 r2 =>
        by_cases hsp : pyIsSpace c2 = true
        · have h' : tomarAnio4 ((c2 :: r2).dropWhile pyIsSpace) = some a := by
            simpa [colaMes, hsp] using h
          obtain ⟨y, r, hyr, hy⟩ := tomarAnio4_inv _ _ h'
          refine ⟨['.'], (c2 :: r2).takeWhile pyIsSpace, y, r, ?_, Or.inr rfl, ?_, ?_, hy⟩
          · rw [← hyr, List.takeWhile_append_dropWhile]
            rfl
          · simp [List.takeWhile_cons, hsp]
          · exact takeWhile_all pyIsSpace (c2 :: r2)
        · simp [colaMes, hsp] at h
    · by_cases hsp : pyIsSpace c = true
      · have h' : tomarAnio4 ((c :: rr).dropWhile pyIsSpace) = some a := by
          simpa [colaMes, hc, hsp] using h
        obtain ⟨y, r, hyr, hy⟩ := tomarAnio4_inv _ _ h'
        refine ⟨[], (c :: rr).takeWhile pyIsSpace, y, r, ?_, Or.inl rfl, ?_, ?_, hy⟩
        · rw [List.nil_append, ← hyr, List.takeWhile_append_dropWhile]
        · simp [List.takeWhile_cons, hsp]
        · exact takeWhile_all pyIsSpace (c :: rr)
      · simp [colaMes, hc, hsp] at h

theorem buscarMes_inv (run despues : List Char) (mt : List Char) (a : Nat) :
    ∀ f, buscarMes run despues f = some (mt, a) →
      ∃ k, 1 ≤ k ∧ k ≤ f ∧ mt = run.take k ∧
        colaMes (run.drop k ++ despues) = some a := by
  intro f
  induction f with
  | zero =>
    intro h
    simp [buscarMes] at h
  | succ k ih =>
    intro h
    simp only [buscarMes] at h
    cases hcola : colaMes (run.drop (k + 1) ++ despues) with
    | some anio =>
      simp only [hcola, Option.some.injEq, Prod.mk.injEq] at h
      exact ⟨k + 1, by omega, by omega, h.1.symm, by rw [hcola, h.2]⟩
    | none =>
      simp only [hcola] at h
      obtain ⟨k', hk1, hk2, hmt, hc⟩ := ih h
      exact ⟨k', hk1, by omega, hmt, hc⟩

theorem coincidirRangoEn_inv (l : List Char) (d1 d2 : Nat) (mt : List Char) (a : Nat)
    (h : coincidirRangoEn l = some (d1, d2, mt, a)) :
    ∃ g1 s1 s2 g2 s3 m pt s4 y suf,
      l = g1 ++ (s1 ++ ('-' :: (s2 ++ (g2 ++ (s3 ++ (m ++ (pt ++ (s4 ++ (y ++ suf))))))))) ∧
      CondPatron g1 s1 s2 g2 s3 m pt s4 y := by
  unfold coincidirRangoEn at h
  cases h1 : tomarDigitos12 l with
  | none => simp [h1] at h
  | some p =>
    obtain ⟨dd1, r1⟩ := p
    simp only [h1] at h
    cases h2 : r1.dropWhile pyIsSpace with
    | nil => simp [h2] at h
    | cons g r3 =>
      simp only [h2] at h
      by_cases hg : g = '-'
      case neg => simp [hg] at h
      case pos =>
        subst hg
        rw [if_pos rfl] at h
        cases h3 : tomarDigitos12 (r3.dropWhile pyIsSpace) with
        | none => simp [h3] at h
        | some q =>
          obtain ⟨dd2, r5⟩ := q
          simp only [h3] at h
          cases r5 with
          | nil => simp at h
          | cons c5 r5' =>
            by_cases hsp : pyIsSpace c5 = true
            case neg => simp [hsp] at h
            case pos =>
              simp only [hsp, if_true] at h
              obtain ⟨g1, hl1, hg1⟩ := tomarDigitos12_inv l dd1 r1 h1
              obtain ⟨g2, hr4, hg2⟩ := tomarDigitos12_inv _ dd2 _ h3
              have hr1 : r1 = r1.takeWhile pyIsSpace ++ ('-' :: r3) := by
                rw [← h2, List.takeWhile_append_dropWhile]
              have hr3 : r3 = r3.takeWhile pyIsSpace ++ (g2 ++ (c5 :: r5')) := by
                rw [← hr4, List.takeWhile_append_dropWhile]
              have hr5 : c5 :: r5' =
                  (c5 :: r5').takeWhile pyIsSpace ++ (c5 :: r5').dropWhile pyIsSpace := by
                rw [List.takeWhile_append_dropWhile]
              set r6v := (c5 :: r5').dropWhile pyIsSpace with hr6v
              have hr6 : r6v = r6v.takeWhile esCharMes ++ r6v.dropWhile esCharMes := by
                rw [List.takeWhile_append_dropWhile]
              set runv := r6v.takeWhile esCharMes with hrunv
              set despv := r6v.dropWhile esCharMes with hdespv
              set s1v := r1.takeWhile pyIsSpace with hs1v
              set s2v := r3.takeWhile pyIsSpace with hs2v
              set s3v := (c5 :: r5').takeWhile pyIsSpace with hs3v
              cases hbm : buscarMes runv despv runv.length with
              | none => simp [hbm] at h
              | some q2 =>
                obtain ⟨mesTxt, anio⟩ := q2
                simp only [hbm, Option.some.injEq, Prod.mk.injEq] at h
                obtain ⟨he1, he2, he3, he4⟩ := h
                obtain ⟨k, hk1, hkle, hmtk, hcola⟩ :=
                  buscarMes_inv runv despv mesTxt anio runv.length hbm
                obtain ⟨pt, s4, yv, rr, hdec, hptc, hs4ne, hs4, hy⟩ :=
                  colaMes_inv _ anio hcola
                have hrun_ne : runv ≠ [] := by
                  intro he
                  rw [he] at hkle
                  simp at hkle
                  omega
                set mv := runv.take k with hmv
                refine ⟨g1, s1v, s2v, g2, s3v, mv, pt, s4, yv, rr, ?_, ?_⟩
                · rw [hl1, hr1, hr3, hr5, hr6]
                  have hrsplit : runv = mv ++ runv.drop k := by
                    rw [hmv, List.take_append_drop]
                  conv_lhs => rw [hrsplit]
                  rw [List.append_assoc]
                  rw [hdec]
                · refine ⟨hg1, ?_, ?_, hg2, ?_, ?_, ?_, ?_, hptc, hs4ne, hs4, hy⟩
                  · exact takeWhile_all pyIsSpace r1
                  · exact takeWhile_all pyIsSpace r3
                  · rw [hs3v]
                    simp [List.takeWhile_cons, hsp]
                  · exact takeWhile_all pyIsSpace (c5 :: r5')
                  · rw [hmv]
                    exact take_no_vacia k runv hk1 hrun_ne
                  · rw [hmv]
                    exact all_take esCharMes k runv (takeWhile_all esCharMes r6v)

theorem buscarRango_inv (l : List Char) (r : Nat × Nat × List Char × Nat)
    (h : buscarRango l = some r) :
    ∃ pre rest, l = pre ++ rest ∧ coincidirRangoEn rest = some r := by
  induction l with
  | nil => simp [buscarRango] at h
  | cons c t ih =>
    cases hc : coincidirRangoEn (c :: t) with
    | some r2 =>
      have h2 : some r2 = some r := by
        rw [← h]
        simp only [buscarRango, hc]
      exact ⟨[], c :: t, rfl, by rw [hc, Option.some.inj h2]⟩
    | none =>
      have h2 : buscarRango t = some r := by
        rw [← h]
        simp only [buscarRango, hc]
      obtain ⟨pre, rest, hpre, hco⟩ := ih h2
      exact ⟨c :: pre, rest, by rw [hpre]; rfl, hco⟩

theorem mesesLookup_cota (w : List Char) (mn : Nat) (h : mesesLookup w = some mn) :
    1 ≤ mn ∧ mn ≤ 12 := by
  unfold mesesLookup at h
  cases hf : MESES.find? (fun p => p.1 == w) with
  | none => rw [hf] at h; simp at h
  | some p =>
    rw [hf] at h
    simp only [Option.map_some'] at h
    have hmem := List.mem_of_find?_eq_some hf
    fin_cases hmem <;> simp at h <;> omega

theorem mesesLookup_clave (ab : List Char) (h : (mesesLookup ab).isSome = true) :
    ab ≠ [] ∧ ab.all esCharMes = true := by
  unfold mesesLookup at h
  cases hf : MESES.find? (fun p => p.1 == ab) with
  | none => rw [hf] at h; simp at h
  | some p =>
    have hp := List.find?_some hf
    have hmem := List.mem_of_find?_eq_some hf
    have hab : p.1 = ab := by simpa using hp
    rw [← hab]
    fin_cases hmem <;> exact ⟨by decide, by decide⟩

theorem buena_implica_patron (l : List Char) (h : ContieneBuena l) : ContienePatron l := by
  obtain ⟨pre, g1, s1, s2, g2, s3, ab, pt, s4, y, suf, heq, hg1, hs1, hs2, hg2,
    hs3ne, hs3, hab, hpt, hs4ne, hs4, hy⟩ := h
  obtain ⟨habne, habmes⟩ := mesesLookup_clave ab hab
  exact ⟨pre, g1, s1, s2, g2, s3, ab, pt, s4, y, suf, heq,
    hg1, hs1, hs2, hg2, hs3ne, hs3, habne, habmes, hpt, hs4ne, hs4, hy⟩

/-- C3 (amended): on the stripped, lowered label the resolver searches the
pattern `D{1,2} - D{1,2} [a-zñ.]+ .? D{4}`.  The example label
`"04 - 09 ago. 2025"` parses to `(4, 9, 8, 2025)`; the empty label fails with
the format error; every successful parse yields a month with `1 ≤ mes ≤ 12`;
the format error occurs exactly when the normalized label contains no
occurrence of the pattern; when it does contain one, the resolver returns a
success or an unknown-month error decided by the leftmost occurrence (not by
an arbitrary one, so a label whose table-valid occurrence is preceded by an
invalid one still fails); an unknown-month error always carries a word absent
from the table; and a label containing a table-valid occurrence never raises
the format error. -/
theorem c3_resolutor_rango :
    parse_fecha_rango "04 - 09 ago. 2025" = .ok (4, 9, 8, 2025) ∧
    parse_fecha_rango "" = .error (.formatoRango "") ∧
    (∀ s d1 d2 mn an, parse_fecha_rango s = .ok (d1, d2, mn, an) → 1 ≤ mn ∧ mn ≤ 12) ∧
    (∀ s, parse_fecha_rango s = .error (.formatoRango s) ↔
      ¬ ContienePatron (normalizarEtiqueta s)) ∧
    (∀ s, ContienePatron (normalizarEtiqueta s) →
      (∃ r, parse_fecha_rango s = .ok r) ∨
      (∃ w, parse_fecha_rango s = .error (.mesDesconocido w))) ∧
    (∀ s w, parse_fecha_rango s = .error (.mesDesconocido w) → mesesLookup w = none) ∧
    (∀ s, ContieneBuena (normalizarEtiqueta s) →
      parse_fecha_rango s ≠ .error (.formatoRango s)) := by
  have HA : ∀ s : String, ContienePatron (normalizarEtiqueta s) →
      ∃ r, buscarRango (normalizarEtiqueta s) = some r := by
    intro s hc
    obtain ⟨pre, g1, s1, s2, g2, s3, m, pt, s4, y, suf, heq, hcond⟩ := hc
    have hco := coincidirRangoEn_completo g1 s1 s2 g2 s3 m pt s4 y suf hcond
    obtain ⟨q, hq⟩ := buscarRango_de_sufijo pre _ _ hco
    rw [heq]
    exact ⟨q, hq⟩
  have HB : ∀ (s : String) (r : Nat × Nat × List Char × Nat),
      buscarRango (normalizarEtiqueta s) = some r →
      ContienePatron (normalizarEtiqueta s) := by
    intro s r h
    obtain ⟨d1, d2, mt, a⟩ := r
    obtain ⟨pre, rest, hpre, hco⟩ := buscarRango_inv _ _ h
    obtain ⟨g1, s1, s2, g2, s3, m, pt, s4, y, suf, hres, hcond⟩ :=
      coincidirRangoEn_inv rest d1 d2 mt a hco
    refine ⟨pre, g1, s1, s2, g2, s3, m, pt, s4, y, suf, ?_, hcond⟩
    rw [hpre, hres]
    rfl
  have hiff : ∀ s, parse_fecha_rango s = .error (.formatoRango s) ↔
      ¬ ContienePatron (normalizarEtiqueta s) := by
    intro s
    constructor
    · intro h hcp
      obtain ⟨r, hr⟩ := HA s hcp
      obtain ⟨e1, e2, mtq, anq⟩ := r
      unfold parse_fecha_rango at h
      simp only [hr] at h
      cases hml : mesesLookup (mtq.filter (fun c => !(c == '.'))) with
      | none => simp [hml] at h
      | some mm => simp [hml] at h
    · intro hcp
      cases hb : buscarRango (normalizarEtiqueta s) with
      | none =>
        unfold parse_fecha_rango
        rw [hb]
      | some r => exact absurd (HB s r hb) hcp
  refine ⟨rfl, rfl, ?_, hiff, ?_, ?_, ?_⟩
  · intro s d1 d2 mn an h
    unfold parse_fecha_rango at h
    cases hb : buscarRango (normalizarEtiqueta s) with
    | none => simp [hb] at h
    | some q =>
      obtain ⟨e1, e2, mtq, anq⟩ := q
      simp only [hb] at h
      cases hml : mesesLookup (mtq.filter (fun c => !(c == '.'))) with
      | none => simp [hml] at h
      | some mm =>
        simp only [hml, Except.ok.injEq, Prod.mk.injEq] at h
        obtain ⟨-, -, hmn, -⟩ := h
        rw [← hmn]
        exact mesesLookup_cota _ mm hml
  · intro s hcp
    obtain ⟨r, hr⟩ := HA s hcp
    obtain ⟨e1, e2, mtq, anq⟩ := r
    cases hml : mesesLookup (mtq.filter (fun c => !(c == '.'))) with
    | none =>
      right
      exact ⟨mtq.filter (fun c => !(c == '.')), by
        simp only [parse_fecha_rango, hr, hml]⟩
    | some mm =>
      left
      exact ⟨(e1, e2, mm, anq), by simp only [parse_fecha_rango, hr, hml]⟩
  · intro s w h
    unfold parse_fecha_rango at h
    cases hb : buscarRango (normalizarEtiqueta s) with
    | none => simp [hb] at h
    | some q =>
      obtain ⟨e1, e2, mtq, anq⟩ := q
      simp only [hb] at h
      cases hml : mesesLookup (mtq.filter (fun c => !(c == '.'))) with
      | some mm => simp [hml] at h
      | none =>
        simp only [hml, Except.error.injEq, PyError.mesDesconocido.injEq] at h
        rw [← h]
        exact hml
  · intro s hb h
    exact absurd (buena_implica_patron _ hb) ((hiff s).mp h)

theorem c3_resolutor_rango_testigo :
    (∃ r, parse_fecha_rango "04 - 09 ago. 2025" = .ok r) ∨
    (∃ w, parse_fecha_rango "04 - 09 ago. 2025" = .error (.mesDesconocido w)) :=
  c3_resolutor_rango.2.2.2.2.1 "04 - 09 ago. 2025"
    ⟨[], "04".data, [' '], [' '], "09".data, [' '], "ago".data, ['.'], [' '],
     "2025".data, [], rfl,
     by decide, by decide, by decide, by decide, by decide, by decide, by decide,
     by decide, Or.inr rfl, by decide, by decide, by decide⟩

theorem c3_contraejemplo :
    ContieneBuena (normalizarEtiqueta "11 - 12 zzz 2024 13 - 14 ago 2025") ∧
    parse_fecha_rango "11 - 12 zzz 2024 13 - 14 ago 2025" =
      .error (.mesDesconocido "zzz".data) := by
  constructor
  · exact ⟨"11 - 12 zzz 2024 ".data, "13".data, [' '], [' '], "14".data, [' '],
      "ago".data, [], [' '], "2025".data, [], rfl,
      by decide, by decide, by decide, by decide, by decide, by decide, by decide,
      Or.inl rfl, by decide, by decide, by decide⟩
  · rfl

end Inacap
